import Mathlib

/-!
# Verification development for `terraform-provider-compile`

A shallow embedding of `data_compile.go` (the `compile` data source).

Modelling conventions
* A Go `string` is a byte string.  It is modelled by a Lean `String` in which every
  character stands for one byte, so `String.length` is the Go `len`.
* A Go `map[string]T` is modelled by the list of its entries (`GoMap`); the order of the
  list carries no meaning.  Wherever the source ranges over a map, the order of the visit
  is an input of the model.
* Calls that leave the process (file system, zip archive, container engine) are
  answered by a `World`; the only file-system state that the program itself mutates,
  the input directory, is threaded explicitly as a `Dir`.
* The input directory is bind-mounted read-write into the container, so a started
  container may change it; what it does is the field `run` of the `Client`.
* A Go `panic` is an outcome of its own (`Result.panic`): it is not an `error` value and
  is not returned to the caller.
* Logging has no effect on results and is left out.
-/

namespace Compile

/-! ## Go values -/

/-- Go `error` values: a path error wrapping `ENOENT`, or any other error. -/
inductive Err where
  | notExist (path : String)
  | msg (text : String)
  deriving DecidableEq, Repr

/-- Source: `os.IsNotExist(err)`; `false` for the `nil` error. -/
def osIsNotExist : Option Err → Bool
  | some (Err.notExist _) => true
  | _ => false

/-- Outcome of a Go call that may return a value, return an `error`, or panic. -/
inductive Result (α : Type) where
  | ok (a : α)
  | error (e : Err)
  | panic (reason : String)
  deriving DecidableEq, Repr

/-- The part of `os.FileMode` the program looks at. -/
inductive FileMode where
  | regular
  | dir
  | other
  deriving DecidableEq, Repr

/-- Source: `FileMode.IsRegular`. -/
def FileMode.IsRegular : FileMode → Bool
  | FileMode.regular => true
  | _ => false

/-! ## Go maps -/

/-- A Go `map[string]β`, as the list of its entries. -/
abbrev GoMap (β : Type) := List (String × β)

/-- Source: `m[k]` with the comma-ok form: the value stored under `k`, if any. -/
def GoMap.get {β : Type} : GoMap β → String → Option β
  | [], _ => none
  | (k', v) :: rest, k => if k' = k then some v else GoMap.get rest k

/-- Source: `m[k] = v`. -/
def GoMap.set {β : Type} (m : GoMap β) (k : String) (v : β) : GoMap β :=
  (k, v) :: m.filter (fun e => decide (e.1 ≠ k))

/-- Keys of a map are pairwise distinct. -/
def GoMap.WF {β : Type} (m : GoMap β) : Prop := (m.map Prod.fst).Nodup

/-- Source: `reflect.DeepEqual` on two non-nil `map[string]string` values: same length,
and every key of the first is bound to the same value in the second. -/
def deepEqual (a b : GoMap String) : Bool :=
  a.length == b.length && a.all (fun e => b.get e.1 == some e.2)

/-! ## Strings -/

/-- Source: `strings.Split(s, sep)` for a one-byte separator, on the bytes of `s`:
the fields between the separators, one more than there are separators. -/
def splitOnByte (sep : Char) : List Char → List (List Char)
  | [] => [[]]
  | c :: cs =>
    if c = sep then [] :: splitOnByte sep cs
    else
      match splitOnByte sep cs with
      | [] => [[c]]
      | f :: fs => (c :: f) :: fs

/-- Source: `strings.Split(s, " ")`. -/
def stringsSplit (s : String) (sep : Char) : List String :=
  (splitOnByte sep s.data).map String.mk

/-- Source: `dropCR` of `bufio`: drop one trailing carriage return. -/
def dropCR (data : List Char) : List Char :=
  if data.getLast? = some '\r' then data.dropLast else data

/-- Source: `bufio.MaxScanTokenSize`. -/
def maxScanTokenSize : Nat := 64 * 1024

/-- Source: `bufio.ErrTooLong`. -/
def ErrTooLong : Err := Err.msg "bufio.Scanner: token too long"

/-- The pieces of a stream between its newlines, as `bufio.Scanner` with the default
`ScanLines` split function hands them out: the tokens delivered by the calls of `Scan`
that return `true`, and the value of `Err()` once `Scan` has returned `false`.
A piece of `maxScanTokenSize` bytes or more cannot be buffered and ends the scan with
`ErrTooLong`; the last piece (after the final newline) is a token only when it is not
empty; `readErr` is the error, if any, with which the underlying reader ended. -/
def scanPieces (readErr : Option Err) : List (List Char) → List String × Option Err
  | [] => ([], readErr)
  | [tail] =>
    if tail = [] then ([], readErr)
    else if maxScanTokenSize ≤ tail.length then ([], some ErrTooLong)
    else ([String.mk (dropCR tail)], readErr)
  | line :: rest =>
    if maxScanTokenSize ≤ line.length then ([], some ErrTooLong)
    else
      let r := scanPieces readErr rest
      (String.mk (dropCR line) :: r.1, r.2)

/-- Source: `bufio.NewScanner(reader)` driven by `for scanner.Scan()`. -/
def scanLines (text : String) (readErr : Option Err) : List String × Option Err :=
  scanPieces readErr (splitOnByte '\n' text.data)

/-- Source: the loop body `split := strings.Split(scanner.Text(), " ");
zipMD5[split[0]] = split[1]` of `getArchiveListing`, run over the delivered tokens.
Indexing `split[1]` panics when the line has no space. -/
def readLoop (zipMD5 : GoMap String) : List String → Result (GoMap String)
  | [] => Result.ok zipMD5
  | line :: rest =>
    match stringsSplit line ' ' with
    | f0 :: f1 :: _ => readLoop (zipMD5.set f0 f1) rest
    | _ => Result.panic "runtime error: index out of range [1] with length 1"

/-- Source: the byte-wise order `<=` of Go strings, used by `sort.Strings`. -/
def bytesLE : List Char → List Char → Bool
  | [], _ => true
  | _ :: _, [] => false
  | a :: as, b :: bs =>
    if a.toNat < b.toNat then true
    else if b.toNat < a.toNat then false
    else bytesLE as bs

/-- Source: `sort.Strings(paths)`. -/
def sortStrings (paths : List String) : List String :=
  paths.insertionSort (fun a b => bytesLE a.data b.data = true)

/-- A digest, `[md5.Size]byte`, as the list of its bytes. -/
abbrev Digest := List Nat

/-- The zero value of `[md5.Size]byte`, which indexing a map yields for a missing key. -/
def zeroDigest : Digest := List.replicate 16 0

/-- Source: `hextable` of `encoding/hex`. -/
def hextable : List Char := "0123456789abcdef".data

/-- Source: `hex.EncodeToString`: two lower-case hexadecimal digits per byte. -/
def hexEncodeToString (src : Digest) : String :=
  String.mk (src.flatMap (fun b => [hextable.getD ((b % 256) / 16) '0', hextable.getD (b % 16) '0']))

/-- Source: `err.Error()`. -/
def Err.Error : Err → String
  | Err.notExist path => "stat " ++ path ++ ": no such file or directory"
  | Err.msg text => text

/-! ## The outside world -/

/-- The input directory: the content of the file of each name, if there is one. -/
abbrev Dir := String → Option String

/-- The effect of `os.OpenFile(name, O_CREATE|O_WRONLY|O_TRUNC, 0600)` on a directory. -/
def Dir.create (d : Dir) (name : String) : Dir :=
  fun n => if n = name then some "" else d n

/-- The effect of `f.WriteString(s)` on the file `name` of a directory. -/
def Dir.append (d : Dir) (name s : String) : Dir :=
  fun n => if n = name then some ((d n).getD "" ++ s) else d n

/-- The effect of a successful `os.Remove` of the file `name` of a directory. -/
def Dir.remove (d : Dir) (name : String) : Dir :=
  fun n => if n = name then none else d n

/-- An opened entry of a zip archive: the bytes it delivers, the error (if any) with which
reading ends, and the result of `Close`. -/
structure ZipStream where
  text : String
  readErr : Option Err
  closeErr : Option Err

/-- An entry of `zip.ReadCloser.File`: its name and the outcome of `file.Open()`. -/
structure ZipFile where
  Name : String
  Open : Except Err ZipStream

/-- A bind mount of `container.HostConfig`. -/
structure Mount where
  Source : String
  Target : String
  deriving DecidableEq, Repr

/-- Calls on the container engine client.  `ContainerRemove` is an operation of the
client that `compileWithContainer` has no call of. -/
inductive Call where
  | ImagePull (ref : String)
  | ContainerCreate (image : String) (cmd : List String) (mounts : List Mount)
  | ContainerStart (id : String)
  | ContainerWait (id : String)
  | ContainerLogs (id : String) (showStdout : Bool)
  | ContainerRemove (id : String)
  deriving DecidableEq, Repr

/-- The five operations of the build, and removal. -/
inductive Op where
  | ImagePull
  | ContainerCreate
  | ContainerStart
  | ContainerWait
  | ContainerLogs
  | ContainerRemove
  deriving DecidableEq, Repr

/-- The operation a call belongs to. -/
def Call.op : Call → Op
  | Call.ImagePull _ => Op.ImagePull
  | Call.ContainerCreate _ _ _ => Op.ContainerCreate
  | Call.ContainerStart _ => Op.ContainerStart
  | Call.ContainerWait _ => Op.ContainerWait
  | Call.ContainerLogs _ _ => Op.ContainerLogs
  | Call.ContainerRemove _ => Op.ContainerRemove

/-- The container engine client (`*client.Client`): what each operation answers.
A stream result (`io.ReadCloser`) is given by the outcome of `ioutil.ReadAll` on it.
`run` is what a started container does to the input directory, which is bind-mounted
read-write at `/input`. -/
structure Client where
  ImagePull : String → Except Err (Except Err String)
  ContainerCreate : String → List String → List Mount → Except Err String
  ContainerStart : String → Option Err
  ContainerWait : String → Except Err Int
  ContainerLogs : String → Bool → Except Err (Except Err String)
  run : Dir → Dir

/-- Answers of the operating system and of the Go runtime.
`MD5All` is a function of this repository that walks a directory and returns the MD5
digest of every file; its source is not part of the sources at hand, so its result is
taken as given.  `range` is the order in which the runtime visits the entries of a map
in a `for ... range` statement. -/
structure World where
  stat : String → Except Err FileMode
  mkdirAll : String → Option Err
  join : String → String → String
  MD5All : String → Except Err (GoMap Digest)
  zipOpenReader : String → Except Err (List ZipFile)
  range : GoMap String → List (String × String)
  openFile : String → Option Err
  writeString : String → Option Err
  cli : Client

/-- What the program did to the outside world, in order. -/
inductive Event where
  | mkdirAll (path : String)
  | md5All (path : String)
  | openReader (path : String)
  | openFile (path : String)
  | writeString (path message : String)
  | client (c : Call)
  | remove (path : String)
  deriving DecidableEq, Repr

/-- Events that write the listing file, call the container engine or delete a file. -/
def Event.mutates : Event → Bool
  | Event.openFile _ => true
  | Event.writeString _ _ => true
  | Event.client _ => true
  | Event.remove _ => true
  | _ => false

/-! ## The functions of `data_compile.go` -/

/-- Source: `dirExist`. -/
def dirExist (w : World) (path : String) : Bool × Option Err :=
  match w.stat path with
  | Except.error err => (false, some err)
  | Except.ok pathInfo =>
    if pathInfo.IsRegular then (false, some (Err.msg "folder is a file"))
    else if !osIsNotExist none then (false, none)
    else (true, none)

/-- Source: `fileExist`. -/
def fileExist (w : World) (path : String) : Option Err :=
  match w.stat path with
  | Except.error err => some err
  | Except.ok scriptStat =>
    if !scriptStat.IsRegular then some (Err.msg "script file does not exist")
    else none

/-- Source: `getDirFilesMD5`.  The paths are collected from the result of `MD5All` in
the order its entries are listed, sorted, and the resulting map is filled. -/
def getDirFilesMD5 (w : World) (path listing : String) : Except Err (GoMap String) :=
  match w.MD5All path with
  | Except.error err => Except.error err
  | Except.ok md5s =>
    let paths := sortStrings (md5s.map Prod.fst)
    Except.ok (paths.foldl (fun md5map p =>
      if p = "/" ++ listing then md5map
      else md5map.set p (hexEncodeToString ((md5s.get p).getD zeroDigest))) [])

/-- Source: lines 192-207 of `getArchiveListing`: scan the opened entry line by line into
a fresh map, then `scanner.Err()`, then `reader.Close()`. -/
def decodeListing (reader : ZipStream) : Result (GoMap String) :=
  let scanned := scanLines reader.text reader.readErr
  match readLoop [] scanned.1 with
  | Result.ok zipMD5 =>
    match scanned.2 with
    | some err => Result.error err
    | none =>
      match reader.closeErr with
      | some err => Result.error err
      | none => Result.ok zipMD5
  | Result.error err => Result.error err
  | Result.panic reason => Result.panic reason

/-- Source: the loop `for _, file := range read.File` of `getArchiveListing`. -/
def findListing : List ZipFile → String → Result (GoMap String)
  | [], _ => Result.error (Err.msg "unable to find listing file")
  | file :: rest, listingFilename =>
    if file.Name = listingFilename then
      match file.Open with
      | Except.error err =>
        Result.error (Err.msg ("[DEBUG] Failed to open zip " ++ file.Name ++
          " for reading: " ++ err.Error))
      | Except.ok reader => decodeListing reader
    else findListing rest listingFilename

/-- Source: `getArchiveListing`. -/
def getArchiveListing (w : World) (archivePath listingFilename : String) :
    Result (GoMap String) :=
  match w.zipOpenReader archivePath with
  | Except.error _ => Result.error (Err.msg ("Failed to open: " ++ archivePath))
  | Except.ok files => findListing files listingFilename

/-- Outcome of a function that acts on the input directory. -/
structure Run where
  result : Result Unit
  events : List Event
  dir : Dir

/-- Source: the loop `for k, v := range md5sInput` of `generateListingFile`, over the
entries in the order of the visit. -/
def writeEntries (w : World) (listingFile file : String) :
    List (String × String) → Dir → Run
  | [], d => ⟨Result.ok (), [], d⟩
  | (k, v) :: rest, d =>
    if k = "/" ++ file then writeEntries w listingFile file rest d
    else
      let message := k ++ " " ++ v ++ "\n"
      match w.writeString message with
      | some err => ⟨Result.error err, [Event.writeString listingFile message], d⟩
      | none =>
        let r := writeEntries w listingFile file rest (d.append file message)
        ⟨r.result, Event.writeString listingFile message :: r.events, r.dir⟩

/-- Source: `generateListingFile`.  A failure of `os.OpenFile` panics. -/
def generateListingFile (w : World) (md5sInput : GoMap String) (folder file : String)
    (d : Dir) : Run :=
  let listingFile := w.join folder file
  match w.openFile listingFile with
  | some err => ⟨Result.panic err.Error, [Event.openFile listingFile], d⟩
  | none =>
    let r := writeEntries w listingFile file (w.range md5sInput) (d.create file)
    ⟨r.result, Event.openFile listingFile :: r.events, r.dir⟩

/-- Source: `deleteListingFile`; `os.Remove` fails when there is no such file. -/
def deleteListingFile (w : World) (folder file : String) (d : Dir) : Run :=
  let filePath := w.join folder file
  match d file with
  | none => ⟨Result.error (Err.notExist filePath), [Event.remove filePath], d⟩
  | some _ => ⟨Result.ok (), [Event.remove filePath], d.remove file⟩

/-- Outcome of `compileWithContainer`: the returned error, the calls made on the client
with the error each returned, and the input directory afterwards. -/
structure Build where
  err : Option Err
  calls : List (Call × Option Err)
  dir : Dir

/-- Source: `compileWithContainer`. -/
def compileWithContainer (cli : Client) (image _filename input output script : String)
    (d : Dir) : Build :=
  let pull := Call.ImagePull image
  match cli.ImagePull image with
  | Except.error err => ⟨some err, [(pull, some err)], d⟩
  | Except.ok reader =>
  match reader with
  | Except.error err => ⟨some err, [(pull, none)], d⟩
  | Except.ok _ =>
  let scriptPath := "/input/" ++ script
  let cmd := ["/bin/sh", scriptPath]
  let mounts := [Mount.mk input "/input", Mount.mk output "/output"]
  let create := Call.ContainerCreate image cmd mounts
  match cli.ContainerCreate image cmd mounts with
  | Except.error err => ⟨some err, [(pull, none), (create, some err)], d⟩
  | Except.ok respID =>
  let start := Call.ContainerStart respID
  match cli.ContainerStart respID with
  | some err => ⟨some err, [(pull, none), (create, none), (start, some err)], d⟩
  | none =>
  let d1 := cli.run d
  let wait := Call.ContainerWait respID
  match cli.ContainerWait respID with
  | Except.error err =>
    ⟨some err, [(pull, none), (create, none), (start, none), (wait, some err)], d1⟩
  | Except.ok _ =>
  let logs := Call.ContainerLogs respID true
  match cli.ContainerLogs respID true with
  | Except.error err =>
    ⟨some err, [(pull, none), (create, none), (start, none), (wait, none),
      (logs, some err)], d1⟩
  | Except.ok reader2 =>
  match reader2 with
  | Except.error err =>
    ⟨some err, [(pull, none), (create, none), (start, none), (wait, none), (logs, none)], d1⟩
  | Except.ok _ =>
    ⟨none, [(pull, none), (create, none), (start, none), (wait, none), (logs, none)], d1⟩

/-- The result of `compileWithContainer` as a `Run`. -/
def Build.toRun (b : Build) : Run :=
  ⟨match b.err with
    | some err => Result.error err
    | none => Result.ok (),
   b.calls.map (fun c => Event.client c.1), b.dir⟩

/-- Source: lines 108-123 of `resourceCompileRead`: save the listing file, compile,
delete the listing file. -/
def rebuild (w : World) (md5sInput : GoMap String)
    (imageStr filenameStr inputStr outputStr scriptStr : String) (d : Dir) : Run :=
  let staged := generateListingFile w md5sInput inputStr "listing" d
  match staged.result with
  | Result.error err => ⟨Result.error err, staged.events, staged.dir⟩
  | Result.panic reason => ⟨Result.panic reason, staged.events, staged.dir⟩
  | Result.ok _ =>
  let built := (compileWithContainer w.cli imageStr filenameStr inputStr outputStr scriptStr
    staged.dir).toRun
  match built.result with
  | Result.error err => ⟨Result.error err, staged.events ++ built.events, built.dir⟩
  | Result.panic reason => ⟨Result.panic reason, staged.events ++ built.events, built.dir⟩
  | Result.ok _ =>
  let deleted := deleteListingFile w inputStr "listing" built.dir
  ⟨deleted.result, staged.events ++ built.events ++ deleted.events, deleted.dir⟩

/-- Source: `resourceCompileRead`, on the values of `image`, `filename`, `input`,
`output` and `script`, from the input directory `d`. -/
def resourceCompileRead (w : World)
    (imageStr filenameStr inputStr outputStr scriptStr : String) (d : Dir) : Run :=
  match (dirExist w inputStr).2 with
  | some err => ⟨Result.error err, [], d⟩
  | none =>
  match w.mkdirAll outputStr with
  | some err => ⟨Result.error err, [Event.mkdirAll outputStr], d⟩
  | none =>
  let scriptFilePath := w.join inputStr scriptStr
  match fileExist w scriptFilePath with
  | some err => ⟨Result.error err, [Event.mkdirAll outputStr], d⟩
  | none =>
  match getDirFilesMD5 w inputStr "listing" with
  | Except.error err =>
    ⟨Result.error err, [Event.mkdirAll outputStr, Event.md5All inputStr], d⟩
  | Except.ok md5sInput =>
  let pre := [Event.mkdirAll outputStr, Event.md5All inputStr]
  let outputFilePath := w.join outputStr filenameStr
  match fileExist w outputFilePath with
  | some _ =>
    let r := rebuild w md5sInput imageStr filenameStr inputStr outputStr scriptStr d
    ⟨r.result, pre ++ r.events, r.dir⟩
  | none =>
    let pre2 := pre ++ [Event.openReader outputFilePath]
    match getArchiveListing w outputFilePath "listing" with
    | Result.error err => ⟨Result.error err, pre2, d⟩
    | Result.panic reason => ⟨Result.panic reason, pre2, d⟩
    | Result.ok md5sArchive =>
      if deepEqual md5sInput md5sArchive then ⟨Result.ok (), pre2, d⟩
      else
        let r := rebuild w md5sInput imageStr filenameStr inputStr outputStr scriptStr d
        ⟨r.result, pre2 ++ r.events, r.dir⟩

/-! ## Sample worlds -/

/-- The five operations of a build, in the order of the source. -/
def fiveOps : List Op :=
  [Op.ImagePull, Op.ContainerCreate, Op.ContainerStart, Op.ContainerWait, Op.ContainerLogs]

/-- A container engine on which every operation succeeds and whose container leaves the
input directory as it is. -/
def quietClient : Client where
  ImagePull := fun _ => Except.ok (Except.ok "pulled")
  ContainerCreate := fun _ _ _ => Except.ok "c1"
  ContainerStart := fun _ => none
  ContainerWait := fun _ => Except.ok 0
  ContainerLogs := fun _ _ => Except.ok (Except.ok "done")
  run := fun d => d

/-- A world with an input directory `in` holding the script `in/build.sh`, an output
file `out/out.zip`, and a character device `/dev/null`.  The archive, the digests of the
input files and the container engine are given. -/
def sampleWorld (archive : Except Err (List ZipFile)) (md5s : GoMap Digest)
    (cli : Client) : World where
  stat := fun p =>
    if p = "in" then Except.ok FileMode.dir
    else if p = "in/build.sh" then Except.ok FileMode.regular
    else if p = "out/out.zip" then Except.ok FileMode.regular
    else if p = "/dev/null" then Except.ok FileMode.other
    else Except.error (Err.notExist p)
  mkdirAll := fun _ => none
  join := fun a b => a ++ "/" ++ b
  MD5All := fun _ => Except.ok md5s
  zipOpenReader := fun _ => archive
  range := fun m => m
  openFile := fun _ => none
  writeString := fun _ => none
  cli := cli

/-- An archive whose only entry is a `listing` with the given text. -/
def archiveWith (text : String) : Except Err (List ZipFile) :=
  Except.ok [ZipFile.mk "listing" (Except.ok (ZipStream.mk text none none))]

/-- The bytes that the loop of `generateListingFile` appends to the listing file when
no write fails, for the entries in the order of the visit. -/
def listingText (file : String) : List (String × String) → String
  | [] => ""
  | (k, v) :: rest =>
    if k = "/" ++ file then listingText file rest
    else (k ++ " " ++ v ++ "\n") ++ listingText file rest

/-- A container engine whose container deletes `/input/listing` (as a script that moves
the listing into the archive does) and whose `ContainerLogs` call then fails. -/
def cleaningClient : Client where
  ImagePull := fun _ => Except.ok (Except.ok "pulled")
  ContainerCreate := fun _ _ _ => Except.ok "c1"
  ContainerStart := fun _ => none
  ContainerWait := fun _ => Except.ok 0
  ContainerLogs := fun _ _ => Except.error (Err.msg "connection closed")
  run := fun d => d.remove "listing"

/-- An input directory that already holds a file named `listing`, next to the script. -/
def dirWithListing : Dir :=
  fun n =>
    if n = "listing" then some "notes of the user"
    else if n = "build.sh" then some "zip -r /output/new.zip /input"
    else none

/-- The entries for which the loop of `generateListingFile` writes a line: all but the
one under `"/" ++ file`. -/
def keptEntries (file : String) (entries : List (String × String)) : List (String × String) :=
  entries.filter (fun e => decide (e.1 ≠ "/" ++ file))

/-- The bytes of the line written for an entry, without the final newline. -/
def lineBytes (e : String × String) : List Char :=
  e.1.data ++ ' ' :: e.2.data

/-- The text made of one line `"<path> <digest>\n"` per entry, in the order of the
list, with no entry left out. -/
def linesOf : List (String × String) → String
  | [] => ""
  | (k, v) :: rest => (k ++ " " ++ v ++ "\n") ++ linesOf rest

/-- Digests as `MD5All` reports them for an input directory with `a.go` and `b.go`. -/
def twoDigests : GoMap Digest :=
  [("/a.go", [0x5d, 0x41, 0x40, 0x2a, 0xbc, 0x4b, 0x2a, 0x76, 0xb9, 0x71, 0x9d, 0x91,
      0x10, 0x17, 0xc5, 0x92]),
   ("/b.go", [0xd4, 0x1d, 0x8c, 0xd9, 0x8f, 0x00, 0xb2, 0x04, 0xe9, 0x80, 0x09, 0x98,
      0xec, 0xf8, 0x42, 0x7e])]

/-- The same world with a runtime that visits the entries of a map the other way
round. -/
def reversingWorld (w : World) : World :=
  { w with range := fun m => m.reverse }

/-- A container engine that cannot pull the image. -/
def offlineClient : Client where
  ImagePull := fun _ => Except.error (Err.msg "pull access denied")
  ContainerCreate := fun _ _ _ => Except.ok "c1"
  ContainerStart := fun _ => none
  ContainerWait := fun _ => Except.ok 0
  ContainerLogs := fun _ _ => Except.ok (Except.ok "done")
  run := fun d => d

/-- An input directory that holds the script only. -/
def dirWithScript : Dir :=
  fun n => if n = "build.sh" then some "zip -r /output/new.zip /input" else none

/-- Digests as `MD5All` reports them for an input directory with `build.sh` and
`listing`. -/
def sampleDigests : GoMap Digest :=
  [("/build.sh", [0x5d, 0x41, 0x40, 0x2a, 0xbc, 0x4b, 0x2a, 0x76, 0xb9, 0x71, 0x9d, 0x91,
      0x10, 0x17, 0xc5, 0x92]),
   ("/listing", [0xd4, 0x1d, 0x8c, 0xd9, 0x8f, 0x00, 0xb2, 0x04, 0xe9, 0x80, 0x09, 0x98,
      0xec, 0xf8, 0x42, 0x7e])]

/-! ## Theorems -/

/-! ### Splitting -/

/-- Splitting a string that does not hold the separator yields the string itself. -/
theorem splitOnByte_of_not_mem (sep : Char) (cs : List Char) (h : sep ∉ cs) :
    splitOnByte sep cs = [cs] := by
  induction cs with
  | nil => rfl
  | cons c cs ih =>
    have h1 : c ≠ sep := fun e => h (e ▸ List.mem_cons_self _ _)
    have h2 : sep ∉ cs := fun e => h (List.mem_cons_of_mem _ e)
    simp [splitOnByte, h1, ih h2]

/-- Splitting `a ++ sep :: b`, where `a` does not hold the separator, yields `a` followed
by the fields of `b`. -/
theorem splitOnByte_append (sep : Char) (a b : List Char) (h : sep ∉ a) :
    splitOnByte sep (a ++ sep :: b) = a :: splitOnByte sep b := by
  induction a with
  | nil => simp [splitOnByte]
  | cons c cs ih =>
    have h1 : c ≠ sep := fun e => h (e ▸ List.mem_cons_self _ _)
    have h2 : sep ∉ cs := fun e => h (List.mem_cons_of_mem _ e)
    simp [splitOnByte, h1, ih h2]

/-- A token without a space makes the read loop panic, whatever the other tokens are. -/
theorem readLoop_panics_of_no_space (tokens : List String) :
    ∀ (zipMD5 : GoMap String), (∃ line ∈ tokens, ' ' ∉ line.data) →
      ∃ reason, readLoop zipMD5 tokens = Result.panic reason := by
  induction tokens with
  | nil => intro _ h; obtain ⟨l, hl, _⟩ := h; cases hl
  | cons t ts ih =>
    intro zipMD5 h
    unfold readLoop
    rcases hsplit : stringsSplit t ' ' with _ | ⟨f0, _ | ⟨f1, fs⟩⟩
    · exact ⟨_, rfl⟩
    · exact ⟨_, rfl⟩
    · simp only
      apply ih
      obtain ⟨l, hl, hsp⟩ := h
      rcases List.mem_cons.mp hl with rfl | hl'
      · exfalso
        simp [stringsSplit, splitOnByte_of_not_mem _ _ hsp] at hsplit
      · exact ⟨l, hl', hsp⟩

/-! ### C4 -/

/-- C4 (the code at the failing input): a listing whose line has no space makes
`getArchiveListing` panic on `split[1]`; no error value and no map is returned. -/
theorem getArchiveListing_panics_on_line_without_hash :
    getArchiveListing (sampleWorld (archiveWith "/main.go\n") [] quietClient)
        "out/out.zip" "listing"
      = Result.panic "runtime error: index out of range [1] with length 1" := by
  decide

/-! ### C6 -/

/-- C6: `compileWithContainer` calls the client in the fixed order ImagePull,
ContainerCreate, ContainerStart, ContainerWait, ContainerLogs, and what it does is
fixed by what the client answers.  When the answer of ImagePull is an error, or the
answers before operation `k` are successes and the answer of operation `k` is an error,
the result is exactly that error and the calls made are exactly the operations up to
and including `k`, each once, with the arguments of the source; no later operation is
called.  The result is `nil` if and only if the client answers all five with success
(and both streams can be read), and then the calls made are exactly the five, each
once.  In every run the calls are a prefix of the five operations, so a removal of the
container is never called. -/
theorem compileWithContainer_fail_fast (cli : Client)
    (image filename input output script : String) (d : Dir) :
    (∀ e, cli.ImagePull image = Except.error e →
      (compileWithContainer cli image filename input output script d).err = some e ∧
      (compileWithContainer cli image filename input output script d).calls
        = [(Call.ImagePull image, some e)]) ∧
    (∀ data e, cli.ImagePull image = Except.ok (Except.ok data) →
      cli.ContainerCreate image ["/bin/sh", "/input/" ++ script]
        [Mount.mk input "/input", Mount.mk output "/output"] = Except.error e →
      (compileWithContainer cli image filename input output script d).err = some e ∧
      (compileWithContainer cli image filename input output script d).calls
        = [(Call.ImagePull image, none),
           (Call.ContainerCreate image ["/bin/sh", "/input/" ++ script]
              [Mount.mk input "/input", Mount.mk output "/output"], some e)]) ∧
    (∀ data id e, cli.ImagePull image = Except.ok (Except.ok data) →
      cli.ContainerCreate image ["/bin/sh", "/input/" ++ script]
        [Mount.mk input "/input", Mount.mk output "/output"] = Except.ok id →
      cli.ContainerStart id = some e →
      (compileWithContainer cli image filename input output script d).err = some e ∧
      (compileWithContainer cli image filename input output script d).calls
        = [(Call.ImagePull image, none),
           (Call.ContainerCreate image ["/bin/sh", "/input/" ++ script]
              [Mount.mk input "/input", Mount.mk output "/output"], none),
           (Call.ContainerStart id, some e)]) ∧
    (∀ data id e, cli.ImagePull image = Except.ok (Except.ok data) →
      cli.ContainerCreate image ["/bin/sh", "/input/" ++ script]
        [Mount.mk input "/input", Mount.mk output "/output"] = Except.ok id →
      cli.ContainerStart id = none →
      cli.ContainerWait id = Except.error e →
      (compileWithContainer cli image filename input output script d).err = some e ∧
      (compileWithContainer cli image filename input output script d).calls
        = [(Call.ImagePull image, none),
           (Call.ContainerCreate image ["/bin/sh", "/input/" ++ script]
              [Mount.mk input "/input", Mount.mk output "/output"], none),
           (Call.ContainerStart id, none),
           (Call.ContainerWait id, some e)]) ∧
    (∀ data id status e, cli.ImagePull image = Except.ok (Except.ok data) →
      cli.ContainerCreate image ["/bin/sh", "/input/" ++ script]
        [Mount.mk input "/input", Mount.mk output "/output"] = Except.ok id →
      cli.ContainerStart id = none →
      cli.ContainerWait id = Except.ok status →
      cli.ContainerLogs id true = Except.error e →
      (compileWithContainer cli image filename input output script d).err = some e ∧
      (compileWithContainer cli image filename input output script d).calls
        = [(Call.ImagePull image, none),
           (Call.ContainerCreate image ["/bin/sh", "/input/" ++ script]
              [Mount.mk input "/input", Mount.mk output "/output"], none),
           (Call.ContainerStart id, none),
           (Call.ContainerWait id, none),
           (Call.ContainerLogs id true, some e)]) ∧
    ((compileWithContainer cli image filename input output script d).err = none ↔
      ∃ data id status logs, cli.ImagePull image = Except.ok (Except.ok data) ∧
        cli.ContainerCreate image ["/bin/sh", "/input/" ++ script]
          [Mount.mk input "/input", Mount.mk output "/output"] = Except.ok id ∧
        cli.ContainerStart id = none ∧
        cli.ContainerWait id = Except.ok status ∧
        cli.ContainerLogs id true = Except.ok (Except.ok logs)) ∧
    (∀ data id status logs, cli.ImagePull image = Except.ok (Except.ok data) →
      cli.ContainerCreate image ["/bin/sh", "/input/" ++ script]
        [Mount.mk input "/input", Mount.mk output "/output"] = Except.ok id →
      cli.ContainerStart id = none →
      cli.ContainerWait id = Except.ok status →
      cli.ContainerLogs id true = Except.ok (Except.ok logs) →
      (compileWithContainer cli image filename input output script d).calls
        = [(Call.ImagePull image, none),
           (Call.ContainerCreate image ["/bin/sh", "/input/" ++ script]
              [Mount.mk input "/input", Mount.mk output "/output"], none),
           (Call.ContainerStart id, none),
           (Call.ContainerWait id, none),
           (Call.ContainerLogs id true, none)]) ∧
    ((compileWithContainer cli image filename input output script d).calls.map
        (fun c => c.1.op) <+: fiveOps) ∧
    (∀ c ∈ (compileWithContainer cli image filename input output script d).calls,
      c.1.op ≠ Op.ContainerRemove) := by
  unfold compileWithContainer
  refine ⟨?_, ?_, ?_, ?_, ?_, ?_, ?_, ?_, ?_⟩
  · intro e h1
    simp [h1]
  · intro data e h1 h2
    simp [h1, h2]
  · intro data id e h1 h2 h3
    simp [h1, h2, h3]
  · intro data id e h1 h2 h3 h4
    simp [h1, h2, h3, h4]
  · intro data id status e h1 h2 h3 h4 h5
    simp [h1, h2, h3, h4, h5]
  · rcases h1 : cli.ImagePull image with e1 | r1
    · simp
    rcases r1 with e1 | data
    · simp
    simp only
    rcases h2 : cli.ContainerCreate image ["/bin/sh", "/input/" ++ script]
        [Mount.mk input "/input", Mount.mk output "/output"] with e2 | id
    · simp
    simp only
    rcases h3 : cli.ContainerStart id with _ | e3
    swap
    · simp [h3]
    simp only
    rcases h4 : cli.ContainerWait id with e4 | status
    · simp [h3, h4]
    simp only
    rcases h5 : cli.ContainerLogs id true with e5 | r5
    · simp [h3, h4, h5]
    rcases r5 with e5 | logs
    · simp [h3, h4, h5]
    · simp [h3, h4, h5]
  · intro data id status logs h1 h2 h3 h4 h5
    simp [h1, h2, h3, h4, h5]
  · simp only
    repeat' split
    all_goals simp [fiveOps, Call.op]
  · simp only
    repeat' split
    all_goals simp [Call.op]

/-- C6 (witness): a client whose first four operations succeed and whose ContainerLogs
fails. -/
theorem compileWithContainer_fail_fast_witness :
    (compileWithContainer cleaningClient "img" "new.zip" "in" "out" "build.sh"
      dirWithScript).err = some (Err.msg "connection closed") ∧
    (compileWithContainer cleaningClient "img" "new.zip" "in" "out" "build.sh"
      dirWithScript).calls
      = [(Call.ImagePull "img", none),
         (Call.ContainerCreate "img" ["/bin/sh", "/input/" ++ "build.sh"]
            [Mount.mk "in" "/input", Mount.mk "out" "/output"], none),
         (Call.ContainerStart "c1", none),
         (Call.ContainerWait "c1", none),
         (Call.ContainerLogs "c1" true, some (Err.msg "connection closed"))] :=
  (compileWithContainer_fail_fast cleaningClient "img" "new.zip" "in" "out" "build.sh"
    dirWithScript).2.2.2.2.1 "pulled" "c1" 0 (Err.msg "connection closed") rfl rfl rfl rfl rfl

/-! ### Maps -/

theorem GoMap.mem_of_get {β : Type} (m : GoMap β) (k : String) (v : β)
    (h : m.get k = some v) : (k, v) ∈ m := by
  induction m with
  | nil => simp [GoMap.get] at h
  | cons e rest ih =>
    obtain ⟨k', v'⟩ := e
    unfold GoMap.get at h
    split at h
    · next hk => subst hk; simp at h; subst h; exact List.mem_cons_self _ _
    · exact List.mem_cons_of_mem _ (ih h)

theorem GoMap.get_eq_none_iff {β : Type} (m : GoMap β) (k : String) :
    m.get k = none ↔ k ∉ m.map Prod.fst := by
  induction m with
  | nil => simp [GoMap.get]
  | cons e rest ih =>
    obtain ⟨k', v'⟩ := e
    unfold GoMap.get
    by_cases hk : k' = k
    · simp [hk]
    · have hk2 : ¬ k = k' := fun h => hk h.symm
      simp [hk, hk2, ih]

theorem GoMap.get_of_mem {β : Type} (m : GoMap β) (hm : m.WF) (k : String) (v : β)
    (h : (k, v) ∈ m) : m.get k = some v := by
  induction m with
  | nil => cases h
  | cons e rest ih =>
    obtain ⟨k', v'⟩ := e
    have hnd : k' ∉ rest.map Prod.fst ∧ (rest.map Prod.fst).Nodup := by
      simpa [GoMap.WF] using hm
    unfold GoMap.get
    rcases List.mem_cons.mp h with heq | hin
    · cases heq; simp
    · have : k' ≠ k := by
        rintro rfl
        exact hnd.1 (List.mem_map.mpr ⟨(k', v), hin, rfl⟩)
      simp [this]
      exact ih hnd.2 hin

theorem GoMap.get_eq_some_iff {β : Type} (m : GoMap β) (hm : m.WF) (k : String) (v : β) :
    m.get k = some v ↔ (k, v) ∈ m :=
  ⟨GoMap.mem_of_get m k v, GoMap.get_of_mem m hm k v⟩

theorem GoMap.get_set {β : Type} (m : GoMap β) (k k' : String) (v : β) :
    (m.set k v).get k' = if k' = k then some v else m.get k' := by
  unfold GoMap.set
  by_cases hk : k' = k
  · subst hk; simp [GoMap.get]
  · have hk' : ¬ k = k' := fun h => hk h.symm
    simp only [GoMap.get, hk, hk', if_false]
    induction m with
    | nil => simp [GoMap.get]
    | cons e rest ih =>
      obtain ⟨a, b⟩ := e
      by_cases ha : a = k
      · subst ha
        simp only [List.filter, ne_eq, not_true_eq_false, decide_False, GoMap.get, hk',
          if_false]
        exact ih
      · by_cases hak : a = k'
        · subst hak; simp [List.filter, GoMap.get, ha]
        · simp only [List.filter, ne_eq, ha, not_false_eq_true, decide_True, GoMap.get, hak,
            if_false]
          exact ih

theorem GoMap.WF_nil {β : Type} : GoMap.WF ([] : GoMap β) := by
  simp [GoMap.WF]

theorem GoMap.WF_set {β : Type} (m : GoMap β) (hm : m.WF) (k : String) (v : β) :
    (m.set k v).WF := by
  unfold GoMap.WF GoMap.set at *
  rw [List.map_cons, List.nodup_cons]
  constructor
  · simp [List.mem_map, List.mem_filter]
  · exact (List.Nodup.sublist (List.Sublist.map _ (List.filter_sublist _)) hm)

theorem GoMap.nodup_of_WF {β : Type} (m : GoMap β) (hm : m.WF) : m.Nodup :=
  List.Nodup.of_map _ hm

/-- On maps, `reflect.DeepEqual` is equality of maps: the same value, or none, under
every key. -/
theorem deepEqual_iff (a b : GoMap String) (ha : a.WF) (hb : b.WF) :
    deepEqual a b = true ↔ ∀ k, a.get k = b.get k := by
  unfold deepEqual
  simp only [Bool.and_eq_true, beq_iff_eq, List.all_eq_true]
  constructor
  · rintro ⟨hlen, hall⟩
    have hsub : a ⊆ b := by
      intro e he
      exact GoMap.mem_of_get b e.1 e.2 (hall e he)
    have hperm : a.Perm b :=
      List.Subperm.perm_of_length_le
        (List.subperm_of_subset (GoMap.nodup_of_WF a ha) hsub) (le_of_eq hlen.symm)
    intro k
    cases hka : a.get k with
    | some v =>
      exact (GoMap.get_of_mem b hb k v (hsub (GoMap.mem_of_get a k v hka))).symm
    | none =>
      cases hkb : b.get k with
      | none => rfl
      | some v =>
        have := GoMap.get_of_mem a ha k v (hperm.mem_iff.mpr (GoMap.mem_of_get b k v hkb))
        rw [hka] at this
        cases this
  · intro h
    have hmem : ∀ e, e ∈ a ↔ e ∈ b := by
      intro e
      rw [← GoMap.get_eq_some_iff a ha e.1 e.2, ← GoMap.get_eq_some_iff b hb e.1 e.2, h]
    constructor
    · exact List.Perm.length_eq
        ((List.perm_ext_iff_of_nodup (GoMap.nodup_of_WF a ha) (GoMap.nodup_of_WF b hb)).mpr
          hmem)
    · intro e he
      rw [← h]
      exact GoMap.get_of_mem a ha e.1 e.2 he

theorem readLoop_WF (tokens : List String) :
    ∀ (zipMD5 m : GoMap String), zipMD5.WF → readLoop zipMD5 tokens = Result.ok m → m.WF := by
  induction tokens with
  | nil => intro z m hz h; simp [readLoop] at h; exact h ▸ hz
  | cons t ts ih =>
    intro z m hz h
    unfold readLoop at h
    split at h
    · exact ih _ m (GoMap.WF_set z hz _ _) h
    · cases h

theorem decodeListing_WF (reader : ZipStream) (m : GoMap String)
    (h : decodeListing reader = Result.ok m) : m.WF := by
  unfold decodeListing at h
  simp only at h
  split at h
  · next z hz =>
    split at h
    · cases h
    · split at h
      · cases h
      · cases h
        exact readLoop_WF _ _ _ GoMap.WF_nil hz
  · cases h
  · cases h

theorem findListing_WF (files : List ZipFile) (name : String) (m : GoMap String)
    (h : findListing files name = Result.ok m) : m.WF := by
  induction files with
  | nil => simp [findListing] at h
  | cons f rest ih =>
    unfold findListing at h
    split at h
    · split at h
      · cases h
      · exact decodeListing_WF _ _ h
    · exact ih h

theorem getArchiveListing_WF (w : World) (archivePath name : String) (m : GoMap String)
    (h : getArchiveListing w archivePath name = Result.ok m) : m.WF := by
  unfold getArchiveListing at h
  split at h
  · cases h
  · exact findListing_WF _ _ _ h

theorem foldl_set_WF {α : Type} (f : GoMap String → α → GoMap String)
    (hf : ∀ m a, m.WF → (f m a).WF) (l : List α) :
    ∀ (m : GoMap String), m.WF → (l.foldl f m).WF := by
  induction l with
  | nil => intro m hm; exact hm
  | cons a l ih => intro m hm; exact ih _ (hf m a hm)

theorem getDirFilesMD5_WF (w : World) (path listing : String) (m : GoMap String)
    (h : getDirFilesMD5 w path listing = Except.ok m) : m.WF := by
  unfold getDirFilesMD5 at h
  split at h
  · cases h
  · simp only [Except.ok.injEq] at h
    subst h
    apply foldl_set_WF _ _ _ _ GoMap.WF_nil
    intro m a hm
    split
    · exact hm
    · exact GoMap.WF_set m hm _ _

/-! ### The rebuild path -/

theorem compileWithContainer_calls_head (cli : Client)
    (image filename input output script : String) (d : Dir) :
    ∃ e rest, (compileWithContainer cli image filename input output script d).calls
      = (Call.ImagePull image, e) :: rest := by
  unfold compileWithContainer
  simp only
  repeat' split
  all_goals exact ⟨_, _, rfl⟩

theorem rebuild_events_head (w : World) (md5sInput : GoMap String)
    (imageStr filenameStr inputStr outputStr scriptStr : String) (d : Dir) :
    ∃ rest, (rebuild w md5sInput imageStr filenameStr inputStr outputStr scriptStr d).events
      = Event.openFile (w.join inputStr "listing") :: rest := by
  have hs : ∃ rest, (generateListingFile w md5sInput inputStr "listing" d).events
      = Event.openFile (w.join inputStr "listing") :: rest := by
    unfold generateListingFile
    simp only
    split <;> exact ⟨_, rfl⟩
  obtain ⟨rest, hrest⟩ := hs
  unfold rebuild
  simp only [hrest]
  repeat' split
  all_goals simp

theorem rebuild_build_invoked (w : World) (md5sInput : GoMap String)
    (imageStr filenameStr inputStr outputStr scriptStr : String) (d : Dir)
    (h : (generateListingFile w md5sInput inputStr "listing" d).result = Result.ok ()) :
    Event.client (Call.ImagePull imageStr) ∈
      (rebuild w md5sInput imageStr filenameStr inputStr outputStr scriptStr d).events := by
  obtain ⟨e, rest, hc⟩ := compileWithContainer_calls_head w.cli imageStr filenameStr inputStr
    outputStr scriptStr (generateListingFile w md5sInput inputStr "listing" d).dir
  unfold rebuild
  simp only [h, Build.toRun, hc]
  repeat' split
  all_goals simp

/-! ### C9 -/

/-- C9 (the code at the failing input): for the input path `/dev/null`, which exists
and is neither a directory nor a regular file, `dirExist` returns no error, and
`resourceCompileRead` goes on to `os.MkdirAll` and returns the error of the later check
of the script; and for the existing directory `in` the boolean result of `dirExist` is
`false`. -/
theorem dirExist_accepts_special_file :
    (sampleWorld (archiveWith "") [] quietClient).stat "/dev/null"
        = Except.ok FileMode.other ∧
    dirExist (sampleWorld (archiveWith "") [] quietClient) "/dev/null" = (false, none) ∧
    (resourceCompileRead (sampleWorld (archiveWith "") [] quietClient)
      "img" "out.zip" "/dev/null" "out" "build.sh" dirWithScript).events
        = [Event.mkdirAll "out"] ∧
    (resourceCompileRead (sampleWorld (archiveWith "") [] quietClient)
      "img" "out.zip" "/dev/null" "out" "build.sh" dirWithScript).result
        = Result.error (Err.notExist "/dev/null/build.sh") ∧
    (sampleWorld (archiveWith "") [] quietClient).stat "in" = Except.ok FileMode.dir ∧
    dirExist (sampleWorld (archiveWith "") [] quietClient) "in" = (false, none) :=
  ⟨rfl, rfl, by decide, by decide, rfl, rfl⟩

/-- The boolean result of `dirExist` is `false` on every path, and every existing path
that is not a regular file passes with no error. -/
theorem dirExist_never_true (w : World) (path : String) :
    (dirExist w path).1 = false ∧
    (∀ m, w.stat path = Except.ok m → m ≠ FileMode.regular →
      dirExist w path = (false, none)) := by
  unfold dirExist
  constructor
  · split
    · rfl
    · split <;> simp [osIsNotExist]
  · intro m hm hne
    cases m <;> simp_all [FileMode.IsRegular, osIsNotExist]

/-- What the validation step of `resourceCompileRead` does enforce: fingerprinting is
reached only if the input path exists and is not a regular file and the joined script
path exists and is a regular file; and for every input path that is missing or is a
regular file, `dirExist` returns an error and `resourceCompileRead` returns that error
with nothing done. -/
theorem resourceCompileRead_validation (w : World)
    (imageStr filenameStr inputStr outputStr scriptStr : String) (d : Dir) :
    (Event.md5All inputStr ∈
        (resourceCompileRead w imageStr filenameStr inputStr outputStr scriptStr d).events →
      (∃ m, w.stat inputStr = Except.ok m ∧ m ≠ FileMode.regular) ∧
      w.stat (w.join inputStr scriptStr) = Except.ok FileMode.regular) ∧
    (((∃ e, w.stat inputStr = Except.error e) ∨ w.stat inputStr = Except.ok FileMode.regular) →
      ∃ err, (dirExist w inputStr).2 = some err ∧
        (resourceCompileRead w imageStr filenameStr inputStr outputStr scriptStr d).result
          = Result.error err ∧
        (resourceCompileRead w imageStr filenameStr inputStr outputStr scriptStr d).events = [] ∧
        (resourceCompileRead w imageStr filenameStr inputStr outputStr scriptStr d).dir = d) := by
  constructor
  · intro h
    unfold resourceCompileRead at h
    rcases hdir : (dirExist w inputStr).2 with _ | e1
    swap
    · simp [hdir] at h
    rcases hmk : w.mkdirAll outputStr with _ | e2
    swap
    · simp [hdir, hmk] at h
    rcases hscript : fileExist w (w.join inputStr scriptStr) with _ | e3
    swap
    · simp [hdir, hmk, hscript] at h
    constructor
    · unfold dirExist at hdir
      split at hdir
      · simp at hdir
      next m hm =>
        refine ⟨m, hm, ?_⟩
        rintro rfl
        simp [FileMode.IsRegular] at hdir
    · unfold fileExist at hscript
      split at hscript
      · simp at hscript
      next m hm =>
        cases m <;> simp [FileMode.IsRegular] at hscript
        exact hm
  · intro h
    unfold resourceCompileRead dirExist
    rcases h with ⟨e, he⟩ | hreg
    · exact ⟨e, by simp [he]⟩
    · exact ⟨Err.msg "folder is a file", by simp [hreg, FileMode.IsRegular]⟩

/-! ### C5 -/

/-- C5: when a regular file exists at the output path but cannot be opened as a zip
archive, or opens and has no entry named `listing`, `getArchiveListing` returns an
error; `resourceCompileRead` then returns an error, leaves the input directory as it
is and neither writes the listing file nor calls the container engine nor deletes
anything; and once validation and fingerprinting have succeeded the error it returns is
the one of `getArchiveListing`. -/
theorem unusable_archive_is_hard_error (w : World)
    (imageStr filenameStr inputStr outputStr scriptStr : String) (d : Dir)
    (hfile : fileExist w (w.join outputStr filenameStr) = none)
    (hbad : (∃ e, w.zipOpenReader (w.join outputStr filenameStr) = Except.error e) ∨
      (∃ files, w.zipOpenReader (w.join outputStr filenameStr) = Except.ok files ∧
        ∀ f ∈ files, f.Name ≠ "listing")) :
    ∃ err, getArchiveListing w (w.join outputStr filenameStr) "listing" = Result.error err ∧
      (∃ e, (resourceCompileRead w imageStr filenameStr inputStr outputStr scriptStr d).result
        = Result.error e) ∧
      (∀ ev ∈ (resourceCompileRead w imageStr filenameStr inputStr outputStr scriptStr d).events,
        ev.mutates = false) ∧
      (resourceCompileRead w imageStr filenameStr inputStr outputStr scriptStr d).dir = d ∧
      ((dirExist w inputStr).2 = none → w.mkdirAll outputStr = none →
        fileExist w (w.join inputStr scriptStr) = none →
        (∃ cur, getDirFilesMD5 w inputStr "listing" = Except.ok cur) →
        (resourceCompileRead w imageStr filenameStr inputStr outputStr scriptStr d).result
          = Result.error err) := by
  have harch : ∃ err,
      getArchiveListing w (w.join outputStr filenameStr) "listing" = Result.error err := by
    unfold getArchiveListing
    rcases hbad with ⟨e, he⟩ | ⟨files, hf, hnone⟩
    · exact ⟨Err.msg ("Failed to open: " ++ w.join outputStr filenameStr), by simp [he]⟩
    · refine ⟨Err.msg "unable to find listing file", ?_⟩
      simp only [hf]
      clear hf
      induction files with
      | nil => rfl
      | cons f rest ih =>
        unfold findListing
        have hne : f.Name ≠ "listing" := hnone f (List.mem_cons_self _ _)
        simp only [hne, if_false]
        exact ih (fun g hg => hnone g (List.mem_cons_of_mem _ hg))
  obtain ⟨err, herr⟩ := harch
  refine ⟨err, herr, ?_, ?_, ?_, ?_⟩
  · unfold resourceCompileRead
    simp only [hfile, herr]
    repeat' split
    all_goals exact ⟨_, rfl⟩
  · unfold resourceCompileRead
    simp only [hfile, herr]
    repeat' split
    all_goals simp [Event.mutates]
  · unfold resourceCompileRead
    simp only [hfile, herr]
    repeat' split
    all_goals rfl
  · rintro h1 h2 h3 ⟨cur, h4⟩
    unfold resourceCompileRead
    simp only [h1, h2, h3, h4, hfile, herr]

/-- C5 (witness): an output file that is not a zip archive. -/
theorem unusable_archive_is_hard_error_witness :
    ∃ err, getArchiveListing (sampleWorld (Except.error (Err.msg "zip: not a valid zip file"))
          [] quietClient) "out/out.zip" "listing" = Result.error err ∧
      (resourceCompileRead (sampleWorld (Except.error (Err.msg "zip: not a valid zip file"))
          [] quietClient) "img" "out.zip" "in" "out" "build.sh" (fun _ => none)).result
        = Result.error err := by
  obtain ⟨err, h1, _, _, _, h5⟩ := unusable_archive_is_hard_error
    (sampleWorld (Except.error (Err.msg "zip: not a valid zip file")) [] quietClient)
    "img" "out.zip" "in" "out" "build.sh" (fun _ => none) (by decide)
    (Or.inl ⟨_, rfl⟩)
  exact ⟨err, h1, h5 (by decide) (by decide) (by decide) ⟨_, rfl⟩⟩

/-! ### C2 -/

/-- C2: once validation and fingerprinting have succeeded with the current map `cur`,
`resourceCompileRead` returns `nil` without writing the listing file, calling the
container engine or deleting anything (and leaves the input directory as it is) if and
only if a regular file exists at the output path, `getArchiveListing` returns a map for
it, and that map equals `cur` as a map (the same value, or none, under every key).  When
no regular file exists there, or the two maps differ under some key (one entry added,
removed or changed is enough), it goes on to stage the listing, and once the listing is
staged it calls the container engine. -/
theorem resourceCompileRead_decision (w : World)
    (imageStr filenameStr inputStr outputStr scriptStr : String) (d : Dir)
    (cur : GoMap String)
    (hin : (dirExist w inputStr).2 = none) (hout : w.mkdirAll outputStr = none)
    (hscript : fileExist w (w.join inputStr scriptStr) = none)
    (hfp : getDirFilesMD5 w inputStr "listing" = Except.ok cur) :
    (((resourceCompileRead w imageStr filenameStr inputStr outputStr scriptStr d).result
          = Result.ok () ∧
        (∀ ev ∈ (resourceCompileRead w imageStr filenameStr inputStr outputStr scriptStr d).events,
          ev.mutates = false) ∧
        (resourceCompileRead w imageStr filenameStr inputStr outputStr scriptStr d).dir = d) ↔
      (fileExist w (w.join outputStr filenameStr) = none ∧
        ∃ prev, getArchiveListing w (w.join outputStr filenameStr) "listing" = Result.ok prev ∧
          ∀ k, cur.get k = prev.get k)) ∧
    ((fileExist w (w.join outputStr filenameStr) ≠ none ∨
        ∃ prev, getArchiveListing w (w.join outputStr filenameStr) "listing" = Result.ok prev ∧
          ¬ ∀ k, cur.get k = prev.get k) →
      Event.openFile (w.join inputStr "listing") ∈
        (resourceCompileRead w imageStr filenameStr inputStr outputStr scriptStr d).events ∧
      ((generateListingFile w cur inputStr "listing" d).result = Result.ok () →
        Event.client (Call.ImagePull imageStr) ∈
          (resourceCompileRead w imageStr filenameStr inputStr outputStr scriptStr d).events)) := by
  have hcur : cur.WF := getDirFilesMD5_WF _ _ _ _ hfp
  obtain ⟨rest, hrest⟩ := rebuild_events_head w cur imageStr filenameStr inputStr outputStr
    scriptStr d
  have hbuild := rebuild_build_invoked w cur imageStr filenameStr inputStr outputStr
    scriptStr d
  unfold resourceCompileRead
  simp only [hin, hout, hscript, hfp]
  rcases hfile : fileExist w (w.join outputStr filenameStr) with _ | e
  swap
  · simp only [hrest]
    refine ⟨⟨?_, ?_⟩, ?_⟩
    · rintro ⟨-, hno, -⟩
      have := hno (Event.openFile (w.join inputStr "listing")) (by simp)
      simp [Event.mutates] at this
    · rintro ⟨h, -⟩
      cases h
    · intro _
      refine ⟨by simp, fun hs => ?_⟩
      have := hbuild hs
      rw [hrest] at this
      exact List.mem_append_right _ this
  rcases harch : getArchiveListing w (w.join outputStr filenameStr) "listing" with
    prev | e | reason
  · have hprev : prev.WF := getArchiveListing_WF _ _ _ _ harch
    by_cases heq : deepEqual cur prev = true
    · have hmap := (deepEqual_iff cur prev hcur hprev).mp heq
      simp only [heq, if_true]
      refine ⟨⟨fun _ => ⟨trivial, prev, rfl, hmap⟩, fun _ => ⟨trivial, ?_, trivial⟩⟩, ?_⟩
      · intro ev hev
        simp at hev
        rcases hev with rfl | rfl | rfl <;> rfl
      · rintro (h | ⟨p, hp, hne⟩)
        · exact absurd rfl h
        · cases hp
          exact absurd hmap hne
    · have hmap : ¬ ∀ k, cur.get k = prev.get k :=
        fun h => heq ((deepEqual_iff cur prev hcur hprev).mpr h)
      simp only [heq, hrest]
      refine ⟨⟨?_, ?_⟩, ?_⟩
      · rintro ⟨-, hno, -⟩
        have := hno (Event.openFile (w.join inputStr "listing")) (by simp)
        simp [Event.mutates] at this
      · rintro ⟨-, p, hp, hp2⟩
        cases hp
        exact absurd hp2 hmap
      · intro _
        refine ⟨by simp, fun hs => ?_⟩
        have := hbuild hs
        rw [hrest] at this
        exact List.mem_append_right _ this
  · refine ⟨⟨?_, ?_⟩, ?_⟩
    · rintro ⟨h, -⟩
      cases h
    · rintro ⟨-, p, hp, -⟩
      cases hp
    · rintro (h | ⟨p, hp, -⟩)
      · exact absurd rfl h
      · cases hp
  · refine ⟨⟨?_, ?_⟩, ?_⟩
    · rintro ⟨h, -⟩
      cases h
    · rintro ⟨-, p, hp, -⟩
      cases hp
    · rintro (h | ⟨p, hp, -⟩)
      · exact absurd rfl h
      · cases hp

/-- C2 (witness): an archive whose listing holds the current fingerprints. -/
theorem resourceCompileRead_decision_witness :
    (resourceCompileRead (sampleWorld (archiveWith "/a 00\n") [("/a", [0])] quietClient)
        "img" "out.zip" "in" "out" "build.sh" (fun _ => none)).result = Result.ok () ∧
    (∀ ev ∈ (resourceCompileRead (sampleWorld (archiveWith "/a 00\n") [("/a", [0])]
        quietClient) "img" "out.zip" "in" "out" "build.sh" (fun _ => none)).events,
      ev.mutates = false) :=
  have h := ((resourceCompileRead_decision
    (sampleWorld (archiveWith "/a 00\n") [("/a", [0])] quietClient)
    "img" "out.zip" "in" "out" "build.sh" (fun _ => none) [("/a", "00")]
    rfl rfl rfl rfl).1).mpr ⟨rfl, [("/a", "00")], rfl, fun _ => rfl⟩
  ⟨h.1, h.2.1⟩

/-! ### Effects on the input directory -/

theorem writeEntries_dir_other (w : World) (listingFile file : String)
    (entries : List (String × String)) :
    ∀ (d : Dir) (n : String), n ≠ file →
      (writeEntries w listingFile file entries d).dir n = d n := by
  induction entries with
  | nil => intro d n _; rfl
  | cons e rest ih =>
    intro d n hn
    obtain ⟨k, v⟩ := e
    unfold writeEntries
    split
    · exact ih d n hn
    · simp only
      split
      · rfl
      · simp only
        rw [ih _ n hn]
        simp [Dir.append, hn]

theorem writeEntries_dir_file (w : World) (listingFile file : String)
    (entries : List (String × String)) :
    ∀ (d : Dir) (s : String), d file = some s →
      (writeEntries w listingFile file entries d).result = Result.ok () →
      (writeEntries w listingFile file entries d).dir file
        = some (s ++ listingText file entries) := by
  induction entries with
  | nil => intro d s hs _; simp [writeEntries, listingText, hs]
  | cons e rest ih =>
    intro d s hs hok
    obtain ⟨k, v⟩ := e
    unfold writeEntries at hok ⊢
    unfold listingText
    split
    · next hk =>
      simp only [hk, if_true] at hok
      exact ih d s hs hok
    · next hk =>
      simp only [hk, if_false] at hok
      simp only at hok ⊢
      split
      · next err herr => simp [herr] at hok
      · next herr =>
        simp only [herr] at hok
        simp only
        have hs2 : (d.append file (k ++ " " ++ v ++ "\n")) file
            = some (s ++ (k ++ " " ++ v ++ "\n")) := by
          simp [Dir.append, hs]
        rw [ih _ _ hs2 hok, String.append_assoc]

theorem writeEntries_ok (w : World) (listingFile file : String)
    (hw : ∀ m, w.writeString m = none) (entries : List (String × String)) :
    ∀ (d : Dir), (writeEntries w listingFile file entries d).result = Result.ok () := by
  induction entries with
  | nil => intro d; rfl
  | cons e rest ih =>
    intro d
    obtain ⟨k, v⟩ := e
    unfold writeEntries
    split
    · exact ih d
    · simp only [hw]
      exact ih _

/-- A successful `generateListingFile` leaves every other file as it is and makes the
listing file hold exactly the text of the loop. -/
theorem generateListingFile_dir (w : World) (md5sInput : GoMap String)
    (folder file : String) (d : Dir)
    (h : (generateListingFile w md5sInput folder file d).result = Result.ok ()) :
    (generateListingFile w md5sInput folder file d).dir file
        = some (listingText file (w.range md5sInput)) ∧
    ∀ n, n ≠ file → (generateListingFile w md5sInput folder file d).dir n = d n := by
  unfold generateListingFile at h ⊢
  simp only at h ⊢
  split
  · next err herr => simp [herr] at h
  · next herr =>
    simp only [herr] at h
    simp only
    constructor
    · have := writeEntries_dir_file w (w.join folder file) file (w.range md5sInput)
        (d.create file) "" (by simp [Dir.create]) h
      simpa using this
    · intro n hn
      rw [writeEntries_dir_other _ _ _ _ _ _ hn]
      simp [Dir.create, hn]

/-- When no open and no write fails, `generateListingFile` returns `nil`. -/
theorem generateListingFile_ok (w : World) (md5sInput : GoMap String)
    (folder file : String) (d : Dir) (ho : w.openFile (w.join folder file) = none)
    (hw : ∀ m, w.writeString m = none) :
    (generateListingFile w md5sInput folder file d).result = Result.ok () := by
  unfold generateListingFile
  simp only [ho]
  exact writeEntries_ok w _ _ hw _ _

theorem generateListingFile_no_remove (w : World) (md5sInput : GoMap String)
    (folder file : String) (d : Dir) (p : String) :
    Event.remove p ∉ (generateListingFile w md5sInput folder file d).events := by
  have hwe : ∀ (entries : List (String × String)) (d : Dir),
      Event.remove p ∉ (writeEntries w (w.join folder file) file entries d).events := by
    intro entries
    induction entries with
    | nil => intro d; simp [writeEntries]
    | cons e rest ih =>
      intro d
      obtain ⟨k, v⟩ := e
      unfold writeEntries
      split
      · exact ih d
      · simp only
        split
        · simp
        · simp [ih]
  unfold generateListingFile
  simp only
  split
  · simp
  · simp [hwe]

/-- The input directory after `compileWithContainer`: as before when the container was
not started, and as the container left it when it was. -/
theorem compileWithContainer_dir (cli : Client)
    (image filename input output script : String) (d : Dir) :
    ((∀ id, (Call.ContainerStart id, none) ∉
          (compileWithContainer cli image filename input output script d).calls) ∧
        (compileWithContainer cli image filename input output script d).dir = d) ∨
      ((∃ id, (Call.ContainerStart id, none) ∈
          (compileWithContainer cli image filename input output script d).calls) ∧
        (compileWithContainer cli image filename input output script d).dir = cli.run d) := by
  unfold compileWithContainer
  simp only
  repeat' split
  all_goals first
    | exact Or.inl ⟨by simp, rfl⟩
    | exact Or.inr ⟨⟨_, by simp; rfl⟩, rfl⟩

/-- Every run of `resourceCompileRead` either changes nothing in the input directory
and neither stages, builds nor deletes, or is a run of the rebuild path on the current
fingerprints. -/
theorem resourceCompileRead_cases (w : World)
    (imageStr filenameStr inputStr outputStr scriptStr : String) (d : Dir) :
    ((resourceCompileRead w imageStr filenameStr inputStr outputStr scriptStr d).dir = d ∧
      ∀ ev ∈ (resourceCompileRead w imageStr filenameStr inputStr outputStr scriptStr d).events,
        ev.mutates = false) ∨
    (∃ cur pre, getDirFilesMD5 w inputStr "listing" = Except.ok cur ∧
      (∀ ev ∈ pre, ev.mutates = false) ∧
      (resourceCompileRead w imageStr filenameStr inputStr outputStr scriptStr d).result
        = (rebuild w cur imageStr filenameStr inputStr outputStr scriptStr d).result ∧
      (resourceCompileRead w imageStr filenameStr inputStr outputStr scriptStr d).events
        = pre ++ (rebuild w cur imageStr filenameStr inputStr outputStr scriptStr d).events ∧
      (resourceCompileRead w imageStr filenameStr inputStr outputStr scriptStr d).dir
        = (rebuild w cur imageStr filenameStr inputStr outputStr scriptStr d).dir) := by
  rcases h1 : (dirExist w inputStr).2 with _ | e1
  swap
  · simp only [resourceCompileRead, h1]
    exact Or.inl ⟨trivial, by simp⟩
  rcases h2 : w.mkdirAll outputStr with _ | e2
  swap
  · simp only [resourceCompileRead, h1, h2]
    exact Or.inl ⟨trivial, by simp [Event.mutates]⟩
  rcases h3 : fileExist w (w.join inputStr scriptStr) with _ | e3
  swap
  · simp only [resourceCompileRead, h1, h2, h3]
    exact Or.inl ⟨trivial, by simp [Event.mutates]⟩
  rcases h4 : getDirFilesMD5 w inputStr "listing" with e4 | cur
  · simp only [resourceCompileRead, h1, h2, h3, h4]
    exact Or.inl ⟨trivial, by simp [Event.mutates]⟩
  rcases h5 : fileExist w (w.join outputStr filenameStr) with _ | e5
  swap
  · simp only [resourceCompileRead, h1, h2, h3, h4, h5]
    exact Or.inr ⟨cur, [Event.mkdirAll outputStr, Event.md5All inputStr], rfl,
      by simp [Event.mutates], rfl, rfl, rfl⟩
  rcases h6 : getArchiveListing w (w.join outputStr filenameStr) "listing" with
    prev | e6 | r6
  · by_cases heq : deepEqual cur prev = true
    · simp only [resourceCompileRead, h1, h2, h3, h4, h5, h6, heq, if_true]
      exact Or.inl ⟨trivial, by simp [Event.mutates]⟩
    · simp only [resourceCompileRead, h1, h2, h3, h4, h5, h6, heq]
      exact Or.inr ⟨cur, [Event.mkdirAll outputStr, Event.md5All inputStr] ++
        [Event.openReader (w.join outputStr filenameStr)], rfl,
        by simp [Event.mutates], rfl, rfl, rfl⟩
  · simp only [resourceCompileRead, h1, h2, h3, h4, h5, h6]
    exact Or.inl ⟨trivial, by simp [Event.mutates]⟩
  · simp only [resourceCompileRead, h1, h2, h3, h4, h5, h6]
    exact Or.inl ⟨trivial, by simp [Event.mutates]⟩

/-- The rebuild path when staging succeeds and the build fails: the error of the build
is the result, and nothing is done after the build. -/
theorem rebuild_of_build_error (w : World) (cur : GoMap String)
    (imageStr filenameStr inputStr outputStr scriptStr : String) (d : Dir) (e : Err)
    (hs : (generateListingFile w cur inputStr "listing" d).result = Result.ok ())
    (hb : (compileWithContainer w.cli imageStr filenameStr inputStr outputStr scriptStr
      (generateListingFile w cur inputStr "listing" d).dir).err = some e) :
    (rebuild w cur imageStr filenameStr inputStr outputStr scriptStr d).result
        = Result.error e ∧
    (rebuild w cur imageStr filenameStr inputStr outputStr scriptStr d).events
        = (generateListingFile w cur inputStr "listing" d).events ++
          (compileWithContainer w.cli imageStr filenameStr inputStr outputStr scriptStr
            (generateListingFile w cur inputStr "listing" d).dir).calls.map
              (fun c => Event.client c.1) ∧
    (rebuild w cur imageStr filenameStr inputStr outputStr scriptStr d).dir
        = (compileWithContainer w.cli imageStr filenameStr inputStr outputStr scriptStr
            (generateListingFile w cur inputStr "listing" d).dir).dir := by
  unfold rebuild
  simp only [hs, Build.toRun, hb]
  exact ⟨trivial, trivial, trivial⟩

/-- A removal among the events of the rebuild path comes after a successful staging and
a build that returned `nil`. -/
theorem rebuild_remove_only_after_build (w : World) (cur : GoMap String)
    (imageStr filenameStr inputStr outputStr scriptStr : String) (d : Dir) (p : String)
    (h : Event.remove p ∈
      (rebuild w cur imageStr filenameStr inputStr outputStr scriptStr d).events) :
    (generateListingFile w cur inputStr "listing" d).result = Result.ok () ∧
    (compileWithContainer w.cli imageStr filenameStr inputStr outputStr scriptStr
      (generateListingFile w cur inputStr "listing" d).dir).err = none := by
  have hnr := generateListingFile_no_remove w cur inputStr "listing" d p
  unfold rebuild at h
  simp only at h
  rcases hs : (generateListingFile w cur inputStr "listing" d).result with u | e | r
  · cases u
    refine ⟨rfl, ?_⟩
    rcases hb : (compileWithContainer w.cli imageStr filenameStr inputStr outputStr scriptStr
      (generateListingFile w cur inputStr "listing" d).dir).err with _ | e
    · rfl
    · exfalso
      simp only [hs, Build.toRun, hb] at h
      simp [hnr] at h
  · simp only [hs] at h
    exact absurd h hnr
  · simp only [hs] at h
    exact absurd h hnr

/-- The rebuild path that returns `nil`, with a container that leaves the input
directory as it is, ends with the input directory as it was less the file `listing`. -/
theorem rebuild_dir_of_ok (w : World) (cur : GoMap String)
    (imageStr filenameStr inputStr outputStr scriptStr : String) (d : Dir)
    (hrun : ∀ d', w.cli.run d' = d')
    (h : (rebuild w cur imageStr filenameStr inputStr outputStr scriptStr d).result
      = Result.ok ()) :
    (rebuild w cur imageStr filenameStr inputStr outputStr scriptStr d).dir
      = d.remove "listing" := by
  have hcd : (compileWithContainer w.cli imageStr filenameStr inputStr outputStr scriptStr
      (generateListingFile w cur inputStr "listing" d).dir).dir
      = (generateListingFile w cur inputStr "listing" d).dir := by
    rcases compileWithContainer_dir w.cli imageStr filenameStr inputStr outputStr scriptStr
      (generateListingFile w cur inputStr "listing" d).dir with ⟨-, h⟩ | ⟨-, h⟩
    · exact h
    · rw [h, hrun]
  unfold rebuild at h ⊢
  simp only at h ⊢
  rcases hs : (generateListingFile w cur inputStr "listing" d).result with u | e | r
  · cases u
    obtain ⟨hfile, hother⟩ := generateListingFile_dir w cur inputStr "listing" d hs
    rcases hb : (compileWithContainer w.cli imageStr filenameStr inputStr outputStr scriptStr
      (generateListingFile w cur inputStr "listing" d).dir).err with _ | e
    · simp only [hs, Build.toRun, hb, hcd, deleteListingFile, hfile]
      funext n
      by_cases hn : n = "listing"
      · simp [Dir.remove, hn]
      · simp [Dir.remove, hn, hother n hn]
    · simp [hs, Build.toRun, hb] at h
  · simp [hs] at h
  · simp [hs] at h

/-! ### C7 -/

/-- C7 (counterexample): with a container that leaves the input directory as it is, a
rebuild from an input directory that already holds a file `listing` returns `nil`, and
that file is gone afterwards. -/
theorem listing_of_user_is_lost :
    (∀ d, quietClient.run d = d) ∧
    (resourceCompileRead (sampleWorld (archiveWith "") sampleDigests quietClient)
      "img" "new.zip" "in" "out" "build.sh" dirWithListing).result = Result.ok () ∧
    dirWithListing "listing" = some "notes of the user" ∧
    (resourceCompileRead (sampleWorld (archiveWith "") sampleDigests quietClient)
      "img" "new.zip" "in" "out" "build.sh" dirWithListing).dir "listing" = none :=
  ⟨fun _ => rfl, by decide, by decide, by decide⟩

/-- C7 (amended): with a container that leaves the input directory as it is, for every
initial input directory without a file named `listing`, once `resourceCompileRead` has
returned `nil` the input directory is as it was before the call. -/
theorem input_restored_when_no_listing (w : World)
    (imageStr filenameStr inputStr outputStr scriptStr : String) (d : Dir)
    (hrun : ∀ d', w.cli.run d' = d') (hno : d "listing" = none)
    (hok : (resourceCompileRead w imageStr filenameStr inputStr outputStr scriptStr d).result
      = Result.ok ()) :
    (resourceCompileRead w imageStr filenameStr inputStr outputStr scriptStr d).dir = d := by
  rcases resourceCompileRead_cases w imageStr filenameStr inputStr outputStr scriptStr d with
    ⟨h, -⟩ | ⟨cur, pre, -, -, hres, -, hdir⟩
  · exact h
  · rw [hdir, rebuild_dir_of_ok w cur imageStr filenameStr inputStr outputStr scriptStr d hrun
      (hres ▸ hok)]
    funext n
    by_cases hn : n = "listing"
    · simp [Dir.remove, hn, hno]
    · simp [Dir.remove, hn]

/-- C7 (witness): a rebuild from an input directory that holds the script only. -/
theorem input_restored_when_no_listing_witness :
    (∀ d', (sampleWorld (archiveWith "") sampleDigests quietClient).cli.run d' = d') ∧
    dirWithScript "listing" = none ∧
    (resourceCompileRead (sampleWorld (archiveWith "") sampleDigests quietClient)
      "img" "new.zip" "in" "out" "build.sh" dirWithScript).result = Result.ok () ∧
    Event.remove "in/listing" ∈
      (resourceCompileRead (sampleWorld (archiveWith "") sampleDigests quietClient)
        "img" "new.zip" "in" "out" "build.sh" dirWithScript).events ∧
    (resourceCompileRead (sampleWorld (archiveWith "") sampleDigests quietClient)
      "img" "new.zip" "in" "out" "build.sh" dirWithScript).dir = dirWithScript :=
  ⟨fun _ => rfl, by decide, by decide, by decide,
    input_restored_when_no_listing (sampleWorld (archiveWith "") sampleDigests quietClient)
      "img" "new.zip" "in" "out" "build.sh" dirWithScript (fun _ => rfl) (by decide)
      (by decide)⟩

/-! ### C10 -/

/-- C10 (counterexample): staging succeeds, the container deletes `/input/listing`,
`ContainerLogs` fails; `resourceCompileRead` returns that error, never calls
`os.Remove`, and the file `listing` is not in the input directory when it returns. -/
theorem listing_absent_after_failed_build :
    (generateListingFile (sampleWorld (archiveWith "") sampleDigests cleaningClient)
      [("/build.sh", "5d41402abc4b2a76b9719d911017c592")] "in" "listing"
      dirWithScript).result = Result.ok () ∧
    (resourceCompileRead (sampleWorld (archiveWith "") sampleDigests cleaningClient)
      "img" "new.zip" "in" "out" "build.sh" dirWithScript).result
        = Result.error (Err.msg "connection closed") ∧
    (resourceCompileRead (sampleWorld (archiveWith "") sampleDigests cleaningClient)
      "img" "new.zip" "in" "out" "build.sh" dirWithScript).events
        = [Event.mkdirAll "out", Event.md5All "in", Event.openFile "in/listing",
           Event.writeString "in/listing" "/build.sh 5d41402abc4b2a76b9719d911017c592\n",
           Event.client (Call.ImagePull "img"),
           Event.client (Call.ContainerCreate "img" ["/bin/sh", "/input/build.sh"]
             [Mount.mk "in" "/input", Mount.mk "out" "/output"]),
           Event.client (Call.ContainerStart "c1"),
           Event.client (Call.ContainerWait "c1"),
           Event.client (Call.ContainerLogs "c1" true)] ∧
    (resourceCompileRead (sampleWorld (archiveWith "") sampleDigests cleaningClient)
      "img" "new.zip" "in" "out" "build.sh" dirWithScript).dir "listing" = none :=
  ⟨by decide, by decide, by decide, by decide⟩

/-- C10 (amended): on the rebuild path of `resourceCompileRead` (the listing file was
opened for writing), when `generateListingFile` succeeds and `compileWithContainer`
returns an error, `resourceCompileRead` returns that same error, `os.Remove` is never
called, the input directory is left as `compileWithContainer` left it, and the file
`listing` is present in it provided the container was not started or a container run
does not itself remove that file; and `os.Remove` is called only after
`generateListingFile` succeeded and `compileWithContainer` returned `nil`. -/
theorem no_cleanup_on_build_failure (w : World)
    (imageStr filenameStr inputStr outputStr scriptStr : String) (d : Dir)
    (cur : GoMap String)
    (hfp : getDirFilesMD5 w inputStr "listing" = Except.ok cur)
    (hpath : Event.openFile (w.join inputStr "listing") ∈
      (resourceCompileRead w imageStr filenameStr inputStr outputStr scriptStr d).events) :
    (∀ e, (generateListingFile w cur inputStr "listing" d).result = Result.ok () →
      (compileWithContainer w.cli imageStr filenameStr inputStr outputStr scriptStr
        (generateListingFile w cur inputStr "listing" d).dir).err = some e →
      (resourceCompileRead w imageStr filenameStr inputStr outputStr scriptStr d).result
        = Result.error e ∧
      (∀ p, Event.remove p ∉
        (resourceCompileRead w imageStr filenameStr inputStr outputStr scriptStr d).events) ∧
      (resourceCompileRead w imageStr filenameStr inputStr outputStr scriptStr d).dir
        = (compileWithContainer w.cli imageStr filenameStr inputStr outputStr scriptStr
            (generateListingFile w cur inputStr "listing" d).dir).dir ∧
      (((∀ id, (Call.ContainerStart id, none) ∉
            (compileWithContainer w.cli imageStr filenameStr inputStr outputStr scriptStr
              (generateListingFile w cur inputStr "listing" d).dir).calls) ∨
          (∀ d', d' "listing" ≠ none → (w.cli.run d') "listing" ≠ none)) →
        (resourceCompileRead w imageStr filenameStr inputStr outputStr scriptStr d).dir
          "listing" ≠ none)) ∧
    (∀ p, Event.remove p ∈
        (resourceCompileRead w imageStr filenameStr inputStr outputStr scriptStr d).events →
      (generateListingFile w cur inputStr "listing" d).result = Result.ok () ∧
      (compileWithContainer w.cli imageStr filenameStr inputStr outputStr scriptStr
        (generateListingFile w cur inputStr "listing" d).dir).err = none) := by
  rcases resourceCompileRead_cases w imageStr filenameStr inputStr outputStr scriptStr d with
    ⟨-, hno⟩ | ⟨cur', pre, hfp', hpre, hres, hev, hdir⟩
  · have := hno _ hpath
    simp [Event.mutates] at this
  rw [hfp] at hfp'
  cases hfp'
  constructor
  · intro e hs hb
    obtain ⟨h1, h2, h3⟩ := rebuild_of_build_error w cur imageStr filenameStr inputStr
      outputStr scriptStr d e hs hb
    refine ⟨hres.trans h1, ?_, hdir.trans h3, ?_⟩
    · intro p hp
      rw [hev, h2] at hp
      rcases List.mem_append.mp hp with hp | hp
      · have := hpre _ hp
        simp [Event.mutates] at this
      · rcases List.mem_append.mp hp with hp | hp
        · exact generateListingFile_no_remove w cur inputStr "listing" d p hp
        · simp at hp
    · intro hkeep
      rw [hdir, h3]
      have hstaged := (generateListingFile_dir w cur inputStr "listing" d hs).1
      rcases compileWithContainer_dir w.cli imageStr filenameStr inputStr outputStr scriptStr
        (generateListingFile w cur inputStr "listing" d).dir with ⟨hns, hd⟩ | ⟨⟨id, hid⟩, hd⟩
      · rw [hd, hstaged]
        simp
      · rcases hkeep with hk | hk
        · exact absurd hid (hk id)
        · rw [hd]
          apply hk
          rw [hstaged]
          simp
  · intro p hp
    rw [hev] at hp
    rcases List.mem_append.mp hp with hp | hp
    · have := hpre _ hp
      simp [Event.mutates] at this
    · exact rebuild_remove_only_after_build w cur imageStr filenameStr inputStr outputStr
        scriptStr d p hp

/-- C10 (witness): a rebuild in which the image cannot be pulled. -/
theorem no_cleanup_on_build_failure_witness :
    getDirFilesMD5 (sampleWorld (archiveWith "") sampleDigests offlineClient) "in" "listing"
      = Except.ok [("/build.sh", "5d41402abc4b2a76b9719d911017c592")] ∧
    Event.openFile "in/listing" ∈
      (resourceCompileRead (sampleWorld (archiveWith "") sampleDigests offlineClient)
        "img" "new.zip" "in" "out" "build.sh" dirWithScript).events ∧
    (resourceCompileRead (sampleWorld (archiveWith "") sampleDigests offlineClient)
      "img" "new.zip" "in" "out" "build.sh" dirWithScript).result
        = Result.error (Err.msg "pull access denied") ∧
    (∀ p, Event.remove p ∉
      (resourceCompileRead (sampleWorld (archiveWith "") sampleDigests offlineClient)
        "img" "new.zip" "in" "out" "build.sh" dirWithScript).events) ∧
    (resourceCompileRead (sampleWorld (archiveWith "") sampleDigests offlineClient)
      "img" "new.zip" "in" "out" "build.sh" dirWithScript).dir "listing" ≠ none :=
  have h := (no_cleanup_on_build_failure
    (sampleWorld (archiveWith "") sampleDigests offlineClient)
    "img" "new.zip" "in" "out" "build.sh" dirWithScript
    [("/build.sh", "5d41402abc4b2a76b9719d911017c592")] rfl (by decide)).1
    (Err.msg "pull access denied") (by decide) rfl
  ⟨rfl, by decide, h.1, h.2.1, h.2.2.2 (Or.inr (fun _ hd => hd))⟩

/-! ### The listing text -/

theorem data_line (k v : String) :
    (k ++ " " ++ v ++ "\n").data = lineBytes (k, v) ++ ['\n'] := by
  simp [lineBytes, String.data_append]

/-- The pieces between the newlines of the listing text are the lines of the kept
entries, followed by an empty piece. -/
theorem splitOnByte_listingText (file : String) (entries : List (String × String))
    (h : ∀ e ∈ entries, e.1 ≠ "/" ++ file → '\n' ∉ e.1.data ∧ '\n' ∉ e.2.data) :
    splitOnByte '\n' (listingText file entries).data
      = (keptEntries file entries).map lineBytes ++ [[]] := by
  induction entries with
  | nil => rfl
  | cons e rest ih =>
    obtain ⟨k, v⟩ := e
    have ih' := ih (fun e he => h e (List.mem_cons_of_mem _ he))
    unfold listingText keptEntries
    by_cases hk : k = "/" ++ file
    · simp only [hk, if_true, List.filter, ne_eq, not_true_eq_false, decide_False]
      exact ih'
    · have hn := h (k, v) (List.mem_cons_self _ _) hk
      have hline : '\n' ∉ lineBytes (k, v) := by
        simp only [lineBytes, List.mem_append, List.mem_cons, not_or]
        exact ⟨hn.1, by decide, hn.2⟩
      simp only [hk, if_false, List.filter, ne_eq, not_false_eq_true, decide_True,
        List.map_cons, List.cons_append]
      rw [String.data_append, data_line, List.append_assoc, List.singleton_append,
        splitOnByte_append _ _ _ hline, ih']
      rfl

/-- Scanning short pieces that end with an empty piece delivers every piece but the
last, each without a trailing carriage return, and reports no error. -/
theorem scanPieces_lines (lines : List (List Char))
    (h : ∀ l ∈ lines, l.length < maxScanTokenSize) :
    scanPieces none (lines ++ [[]]) = (lines.map (fun l => String.mk (dropCR l)), none) := by
  induction lines with
  | nil => simp [scanPieces]
  | cons l rest ih =>
    have ih' := ih (fun x hx => h x (List.mem_cons_of_mem _ hx))
    have hl : ¬ maxScanTokenSize ≤ l.length := Nat.not_le.mpr (h l (List.mem_cons_self _ _))
    cases hrest : rest ++ [[]] with
    | nil => simp at hrest
    | cons x xs =>
      rw [List.cons_append, hrest]
      unfold scanPieces
      rw [← hrest, ih']
      simp [hl]

theorem dropCR_lineBytes (k v : String) (hv : '\r' ∉ v.data) :
    dropCR (lineBytes (k, v)) = lineBytes (k, v) := by
  unfold dropCR
  have : (lineBytes (k, v)).getLast? ≠ some '\r' := by
    intro hlast
    unfold lineBytes at hlast
    rw [List.getLast?_append] at hlast
    cases hc : (' ' :: v.data).getLast? with
    | none => simp at hc
    | some x =>
      rw [hc] at hlast
      simp only [Option.or_some, Option.some.injEq] at hlast
      subst hlast
      have hmem := List.mem_of_getLast?_eq_some hc
      rcases List.mem_cons.mp hmem with h | h
      · exact absurd h (by decide)
      · exact hv h
  simp [this]

theorem stringsSplit_line (k v : String) (hk : ' ' ∉ k.data) (hv : ' ' ∉ v.data) :
    stringsSplit (String.mk (lineBytes (k, v))) ' ' = [k, v] := by
  unfold stringsSplit lineBytes
  simp only
  rw [splitOnByte_append _ _ _ hk, splitOnByte_of_not_mem _ _ hv]
  rfl

/-- The read loop over the lines of entries without spaces stores every entry. -/
theorem readLoop_lines (es : List (String × String))
    (h : ∀ e ∈ es, ' ' ∉ e.1.data ∧ ' ' ∉ e.2.data) :
    ∀ (zipMD5 : GoMap String),
      readLoop zipMD5 (es.map (fun e => String.mk (lineBytes e)))
        = Result.ok (es.foldl (fun m e => m.set e.1 e.2) zipMD5) := by
  induction es with
  | nil => intro z; rfl
  | cons e rest ih =>
    intro z
    obtain ⟨k, v⟩ := e
    have hkv := h (k, v) (List.mem_cons_self _ _)
    simp only [List.map_cons, List.foldl_cons]
    unfold readLoop
    rw [stringsSplit_line k v hkv.1 hkv.2]
    exact ih (fun e he => h e (List.mem_cons_of_mem _ he)) _

/-- Storing entries with distinct keys one after the other yields a map that binds
every key of an entry to its value and leaves the others as they were. -/
theorem get_foldl_set (es : List (String × String)) (hes : GoMap.WF es) :
    ∀ (z : GoMap String) (k : String),
      (es.foldl (fun m e => m.set e.1 e.2) z).get k
        = match GoMap.get es k with
          | some v => some v
          | none => z.get k := by
  induction es with
  | nil => intro z k; rfl
  | cons e rest ih =>
    intro z k
    obtain ⟨a, b⟩ := e
    have hnd : a ∉ rest.map Prod.fst ∧ (rest.map Prod.fst).Nodup := by
      simpa [GoMap.WF] using hes
    simp only [List.foldl_cons]
    rw [ih hnd.2, GoMap.get_set]
    by_cases hk : a = k
    · subst hk
      have hnone : GoMap.get rest a = none := (GoMap.get_eq_none_iff rest a).mpr hnd.1
      simp [GoMap.get, hnone]
    · have hk' : ¬ k = a := fun h => hk h.symm
      simp [GoMap.get, hk, hk']

theorem keptEntries_WF (file : String) (entries : List (String × String))
    (h : GoMap.WF entries) : GoMap.WF (keptEntries file entries) :=
  List.Nodup.sublist (List.Sublist.map _ (List.filter_sublist _)) h

theorem perm_WF (a b : List (String × String)) (hp : a.Perm b) (hb : GoMap.WF b) :
    GoMap.WF a :=
  (List.Perm.nodup_iff (List.Perm.map Prod.fst hp)).mpr hb

theorem mem_keptEntries (file : String) (entries : List (String × String))
    (e : String × String) :
    e ∈ keptEntries file entries ↔ e ∈ entries ∧ e.1 ≠ "/" ++ file := by
  simp [keptEntries, List.mem_filter]

theorem not_mem_hextable (c : Char) (hc : c = ' ' ∨ c = '\n' ∨ c = '\r') :
    c ∉ hextable := by
  rcases hc with rfl | rfl | rfl <;> decide

/-- What decoding the text of a listing yields: the map of the kept entries. -/
theorem decodeListing_listingText (L : String) (order : List (String × String))
    (hWF : GoMap.WF order)
    (hkey : ∀ e ∈ order, e.1 ≠ "/" ++ L → ' ' ∉ e.1.data ∧ '\n' ∉ e.1.data)
    (hval : ∀ e ∈ order, e.1 ≠ "/" ++ L → ∀ c ∈ e.2.data, c ∈ hextable)
    (hlen : ∀ e ∈ order, e.1 ≠ "/" ++ L → e.1.length + 1 + e.2.length < maxScanTokenSize) :
    ∃ decoded, decodeListing (ZipStream.mk (listingText L order) none none)
        = Result.ok decoded ∧
      ∀ k, decoded.get k = GoMap.get (keptEntries L order) k := by
  have hv : ∀ e ∈ order, e.1 ≠ "/" ++ L → ∀ c, (c = ' ' ∨ c = '\n' ∨ c = '\r') →
      c ∉ e.2.data := by
    intro e he hne c hc hmem
    exact not_mem_hextable c hc (hval e he hne c hmem)
  have hsplit := splitOnByte_listingText L order (fun e he hne =>
    ⟨(hkey e he hne).2, hv e he hne '\n' (Or.inr (Or.inl rfl))⟩)
  have hscan : scanLines (listingText L order) none
      = ((keptEntries L order).map (fun e => String.mk (lineBytes e)), none) := by
    unfold scanLines
    rw [hsplit, scanPieces_lines]
    · rw [List.map_map]
      congr 1
      apply List.map_congr_left
      intro e he
      obtain ⟨he1, he2⟩ := (mem_keptEntries L order e).mp he
      simp only [Function.comp]
      rw [dropCR_lineBytes e.1 e.2 (hv e he1 he2 '\r' (Or.inr (Or.inr rfl)))]
    · intro l hl
      obtain ⟨e, he, rfl⟩ := List.mem_map.mp hl
      obtain ⟨he1, he2⟩ := (mem_keptEntries L order e).mp he
      have hlenEq : (lineBytes e).length = e.1.length + 1 + e.2.length := by
        show (e.1.data ++ ' ' :: e.2.data).length = e.1.data.length + 1 + e.2.data.length
        rw [List.length_append, List.length_cons]
        omega
      rw [hlenEq]
      exact hlen e he1 he2
  refine ⟨(keptEntries L order).foldl (fun m e => m.set e.1 e.2) [], ?_, ?_⟩
  · unfold decodeListing
    simp only [hscan]
    rw [readLoop_lines]
    intro e he
    obtain ⟨he1, he2⟩ := (mem_keptEntries L order e).mp he
    exact ⟨(hkey e he1 he2).1, hv e he1 he2 ' ' (Or.inl rfl)⟩
  · intro k
    rw [get_foldl_set _ (keptEntries_WF L order hWF)]
    cases GoMap.get (keptEntries L order) k <;> rfl

/-- The map of the kept entries of a visit of `M` is `M` less the entry under
`"/" ++ L`. -/
theorem get_keptEntries (L : String) (M order : List (String × String)) (hM : GoMap.WF M)
    (hp : order.Perm M) (k : String) :
    GoMap.get (keptEntries L order) k = if k = "/" ++ L then none else GoMap.get M k := by
  have hO : GoMap.WF order := perm_WF order M hp hM
  have hK := keptEntries_WF L order hO
  apply Option.ext
  intro v
  simp only [Option.mem_def]
  rw [GoMap.get_eq_some_iff _ hK, mem_keptEntries, hp.mem_iff]
  by_cases hk : k = "/" ++ L
  · simp [hk]
  · simp [hk, GoMap.get_eq_some_iff M hM]

/-! ### C1 -/

/-- C1 (counterexample): a path with a space.  The listing written for the map that
binds `/my file.txt` is decoded into a map that binds `/my` to `file.txt` and has
nothing under `/my file.txt`. -/
theorem manifest_round_trip_fails_on_space :
    (generateListingFile (sampleWorld (archiveWith "") [] quietClient)
      [("/my file.txt", "d41d8cd98f00b204e9800998ecf8427e")] "in" "listing"
      dirWithScript).dir "listing"
        = some "/my file.txt d41d8cd98f00b204e9800998ecf8427e\n" ∧
    decodeListing (ZipStream.mk "/my file.txt d41d8cd98f00b204e9800998ecf8427e\n" none none)
        = Result.ok [("/my", "file.txt")] ∧
    GoMap.get [("/my file.txt", "d41d8cd98f00b204e9800998ecf8427e")] "/my file.txt"
        = some "d41d8cd98f00b204e9800998ecf8427e" ∧
    GoMap.get [("/my", "file.txt")] "/my file.txt" = none := by
  decide

/-- C1 (amended): for every fingerprint map `M` (distinct paths, hexadecimal digests)
whose paths other than `"/" ++ L` hold neither a space nor a newline and whose lines
are shorter than the token limit of the scanner (65536 bytes), and for every order in
which the runtime visits `M`, the text that a successful `generateListingFile` leaves in
the listing file is decoded by the line parser of `getArchiveListing` into a map that
equals `M` with the entry under `"/" ++ L` removed. -/
theorem manifest_round_trip (w : World) (M : GoMap String) (folder L : String) (d : Dir)
    (hM : M.WF) (hrange : (w.range M).Perm M)
    (hkey : ∀ e ∈ M, e.1 ≠ "/" ++ L → ' ' ∉ e.1.data ∧ '\n' ∉ e.1.data)
    (hval : ∀ e ∈ M, e.1 ≠ "/" ++ L → ∀ c ∈ e.2.data, c ∈ hextable)
    (hlen : ∀ e ∈ M, e.1 ≠ "/" ++ L → e.1.length + 1 + e.2.length < maxScanTokenSize)
    (hgen : (generateListingFile w M folder L d).result = Result.ok ()) :
    ∃ text decoded, (generateListingFile w M folder L d).dir L = some text ∧
      decodeListing (ZipStream.mk text none none) = Result.ok decoded ∧
      ∀ k, decoded.get k = if k = "/" ++ L then none else M.get k := by
  obtain ⟨decoded, hdec, hget⟩ := decodeListing_listingText L (w.range M)
    (perm_WF _ _ hrange hM)
    (fun e he => hkey e (hrange.mem_iff.mp he))
    (fun e he => hval e (hrange.mem_iff.mp he))
    (fun e he => hlen e (hrange.mem_iff.mp he))
  refine ⟨listingText L (w.range M), decoded,
    (generateListingFile_dir w M folder L d hgen).1, hdec, ?_⟩
  intro k
  rw [hget, get_keptEntries L M (w.range M) hM hrange]

/-- C1 (witness): two source files. -/
theorem manifest_round_trip_witness :
    ∃ text decoded,
      (generateListingFile (sampleWorld (archiveWith "") twoDigests quietClient)
        [("/b.go", "d41d8cd98f00b204e9800998ecf8427e"),
         ("/a.go", "5d41402abc4b2a76b9719d911017c592")] "in" "listing" dirWithScript).dir
          "listing" = some text ∧
      decodeListing (ZipStream.mk text none none) = Result.ok decoded ∧
      ∀ k, decoded.get k = if k = "/" ++ "listing" then none
        else GoMap.get [("/b.go", "d41d8cd98f00b204e9800998ecf8427e"),
          ("/a.go", "5d41402abc4b2a76b9719d911017c592")] k :=
  manifest_round_trip (sampleWorld (archiveWith "") twoDigests quietClient)
    [("/b.go", "d41d8cd98f00b204e9800998ecf8427e"),
     ("/a.go", "5d41402abc4b2a76b9719d911017c592")] "in" "listing" dirWithScript
    (by unfold GoMap.WF; decide) (List.Perm.refl _) (by decide) (by decide) (by decide)
    (by decide)

/-! ### C3 -/

/-- What the filling loop of `getDirFilesMD5` stores: under every listed path other than
`"/" ++ listing`, the hexadecimal form of its digest. -/
theorem get_foldl_fill (md5s : GoMap Digest) (listing : String) (paths : List String) :
    ∀ (z : GoMap String) (p : String),
      (paths.foldl (fun md5map q =>
          if q = "/" ++ listing then md5map
          else md5map.set q (hexEncodeToString ((md5s.get q).getD zeroDigest))) z).get p
        = if p ∈ paths ∧ p ≠ "/" ++ listing
          then some (hexEncodeToString ((md5s.get p).getD zeroDigest))
          else z.get p := by
  induction paths with
  | nil => intro z p; simp
  | cons a rest ih =>
    intro z p
    simp only [List.foldl_cons]
    rw [ih]
    by_cases hp : p = "/" ++ listing
    · subst hp
      simp only [ne_eq, not_true_eq_false, and_false, if_false]
      by_cases ha : a = "/" ++ listing
      · simp [ha]
      · have : ¬ "/" ++ listing = a := fun h => ha h.symm
        simp [ha, GoMap.get_set, this]
    · by_cases hr : p ∈ rest
      · simp [hr, hp]
      · by_cases ha : a = "/" ++ listing
        · have hpa : ¬ p = a := fun h => hp (h.trans ha)
          simp [hr, hp, ha, hpa]
        · by_cases hpa : p = a
          · subst hpa
            simp [hr, hp, GoMap.get_set]
          · simp [hr, hp, ha, hpa, GoMap.get_set]

/-- The map returned by `getDirFilesMD5`, key by key. -/
theorem getDirFilesMD5_get (w : World) (path listing : String) (md5s : GoMap Digest)
    (hmd5 : w.MD5All path = Except.ok md5s) :
    ∃ cur, getDirFilesMD5 w path listing = Except.ok cur ∧
      ∀ p, cur.get p = if p = "/" ++ listing then none
        else (md5s.get p).map hexEncodeToString := by
  unfold getDirFilesMD5
  simp only [hmd5]
  refine ⟨_, rfl, ?_⟩
  intro p
  rw [get_foldl_fill]
  have hmem : p ∈ sortStrings (md5s.map Prod.fst) ↔ p ∈ md5s.map Prod.fst :=
    (List.perm_insertionSort _ _).mem_iff
  by_cases hp : p = "/" ++ listing
  · simp [hp, GoMap.get]
  · cases hg : md5s.get p with
    | none =>
      have : p ∉ md5s.map Prod.fst := (GoMap.get_eq_none_iff md5s p).mp hg
      simp [hp, hmem, this, GoMap.get]
    | some dg =>
      have : p ∈ md5s.map Prod.fst := by
        have := GoMap.mem_of_get md5s p dg hg
        exact List.mem_map.mpr ⟨(p, dg), this, rfl⟩
      simp [hp, hmem, this]

/-- The text of the loop of `generateListingFile` is made of the lines of the kept
entries, one per entry and in the order of the visit. -/
theorem listingText_eq_linesOf (L : String) (order : List (String × String)) :
    listingText L order = linesOf (keptEntries L order) := by
  induction order with
  | nil => rfl
  | cons e rest ih =>
    obtain ⟨k, v⟩ := e
    unfold listingText keptEntries
    by_cases hk : k = "/" ++ L
    · simp only [hk, if_true, List.filter, ne_eq, not_true_eq_false, decide_False]
      exact ih
    · simp only [hk, if_false, List.filter, ne_eq, not_false_eq_true, decide_True, linesOf]
      rw [ih]
      rfl

/-- Every `WriteString` of the loop of `generateListingFile` writes the line of a visited
entry whose key is not `"/" ++ file`. -/
theorem writeEntries_events (w : World) (listingFile file : String)
    (entries : List (String × String)) :
    ∀ (d : Dir) (p msg : String),
      Event.writeString p msg ∈ (writeEntries w listingFile file entries d).events →
      ∃ e ∈ entries, e.1 ≠ "/" ++ file ∧ msg = e.1 ++ " " ++ e.2 ++ "\n" := by
  induction entries with
  | nil => intro d p msg h; simp [writeEntries] at h
  | cons e rest ih =>
    intro d p msg h
    obtain ⟨k, v⟩ := e
    unfold writeEntries at h
    by_cases hk : k = "/" ++ file
    · simp only [hk, if_true] at h
      obtain ⟨e, he, h1, h2⟩ := ih d p msg h
      exact ⟨e, List.mem_cons_of_mem _ he, h1, h2⟩
    · simp only [hk, if_false] at h
      rcases hw : w.writeString (k ++ " " ++ v ++ "\n") with _ | err
      · simp only [hw, List.mem_cons, Event.writeString.injEq] at h
        rcases h with ⟨-, rfl⟩ | h
        · exact ⟨(k, v), List.mem_cons_self _ _, hk, rfl⟩
        · obtain ⟨e, he, h1, h2⟩ := ih _ p msg h
          exact ⟨e, List.mem_cons_of_mem _ he, h1, h2⟩
      · simp only [hw, List.mem_cons, Event.writeString.injEq, List.mem_nil_iff,
          or_false] at h
        obtain ⟨-, rfl⟩ := h
        exact ⟨(k, v), List.mem_cons_self _ _, hk, rfl⟩

/-- C3: for every result of `MD5All` and every listing name `L`, the map returned by
`getDirFilesMD5` has no key `"/" ++ L` (also when `MD5All` reports a file at that path)
and binds every other key of that result, and no other, to the hexadecimal form of its
digest; and for every map `M`, every `WriteString` of `generateListingFile` writes the
line of an entry of `M` whose key is not `"/" ++ L`, and the text that a successful
`generateListingFile` leaves in the listing file is made of exactly one line per entry
of `M` other than the one under `"/" ++ L`: no line is written for `"/" ++ L`. -/
theorem self_exclusion (w : World) (path folder L : String) (md5s : GoMap Digest)
    (M : GoMap String) (d : Dir) (hmd5 : w.MD5All path = Except.ok md5s)
    (hrange : (w.range M).Perm M) :
    (∃ cur, getDirFilesMD5 w path L = Except.ok cur ∧ cur.get ("/" ++ L) = none ∧
      ∀ p, p ≠ "/" ++ L → cur.get p = (md5s.get p).map hexEncodeToString) ∧
    (∀ p msg, Event.writeString p msg ∈ (generateListingFile w M folder L d).events →
      ∃ e ∈ M, e.1 ≠ "/" ++ L ∧ msg = e.1 ++ " " ++ e.2 ++ "\n") ∧
    ((generateListingFile w M folder L d).result = Result.ok () →
      (generateListingFile w M folder L d).dir L
        = some (linesOf (keptEntries L (w.range M)))) ∧
    (∀ e, e ∈ keptEntries L (w.range M) ↔ e ∈ M ∧ e.1 ≠ "/" ++ L) ∧
    (keptEntries L (w.range M)).Perm (keptEntries L M) := by
  refine ⟨?_, ?_, ?_, ?_, ?_⟩
  · obtain ⟨cur, hcur, hget⟩ := getDirFilesMD5_get w path L md5s hmd5
    refine ⟨cur, hcur, ?_, ?_⟩
    · rw [hget]; simp
    · intro p hp
      rw [hget]; simp [hp]
  · intro p msg h
    unfold generateListingFile at h
    simp only at h
    rcases ho : w.openFile (w.join folder L) with _ | err
    · simp only [ho, List.mem_cons] at h
      rcases h with h | h
      · cases h
      · obtain ⟨e, he, h1, h2⟩ := writeEntries_events w _ L _ _ p msg h
        exact ⟨e, hrange.mem_iff.mp he, h1, h2⟩
    · simp [ho] at h
  · intro hgen
    rw [(generateListingFile_dir w M folder L d hgen).1, listingText_eq_linesOf]
  · intro e
    rw [mem_keptEntries, hrange.mem_iff]
  · exact List.Perm.filter _ hrange

/-- C3 (witness): an input directory in which both `build.sh` and `listing` exist. -/
theorem self_exclusion_witness :
    (∃ cur, getDirFilesMD5 (sampleWorld (archiveWith "") sampleDigests quietClient)
        "in" "listing" = Except.ok cur ∧
      cur.get ("/" ++ "listing") = none ∧
      ∀ p, p ≠ "/" ++ "listing" →
        cur.get p = (GoMap.get sampleDigests p).map hexEncodeToString) ∧
    (generateListingFile (sampleWorld (archiveWith "") sampleDigests quietClient)
        [("/listing", "d41d8cd98f00b204e9800998ecf8427e"),
         ("/build.sh", "5d41402abc4b2a76b9719d911017c592")] "in" "listing"
        dirWithScript).dir "listing"
      = some (linesOf [("/build.sh", "5d41402abc4b2a76b9719d911017c592")]) :=
  have h := self_exclusion (sampleWorld (archiveWith "") sampleDigests quietClient)
    "in" "in" "listing" sampleDigests
    [("/listing", "d41d8cd98f00b204e9800998ecf8427e"),
     ("/build.sh", "5d41402abc4b2a76b9719d911017c592")] dirWithScript rfl
    (List.Perm.refl _)
  ⟨h.1, h.2.2.1 (by decide)⟩

/-! ### C8 -/

/-- C8 (the code at the failing input): for the input files `a.go` and `b.go`,
`getDirFilesMD5` returns a map of two entries; a runtime that visits the entry of
`/b.go` first makes `generateListingFile` write the line of `/b.go` before the line of
`/a.go`, and a runtime that visits them the other way round makes it write the other
text: the lines are in the order of the visit, not in ascending order of path, and
the bytes written are not determined by the map. -/
theorem listing_lines_follow_map_iteration :
    getDirFilesMD5 (sampleWorld (archiveWith "") twoDigests quietClient) "in" "listing"
      = Except.ok [("/b.go", "d41d8cd98f00b204e9800998ecf8427e"),
          ("/a.go", "5d41402abc4b2a76b9719d911017c592")] ∧
    ((sampleWorld (archiveWith "") twoDigests quietClient).range
        [("/b.go", "d41d8cd98f00b204e9800998ecf8427e"),
         ("/a.go", "5d41402abc4b2a76b9719d911017c592")]).Perm
      ((reversingWorld (sampleWorld (archiveWith "") twoDigests quietClient)).range
        [("/b.go", "d41d8cd98f00b204e9800998ecf8427e"),
         ("/a.go", "5d41402abc4b2a76b9719d911017c592")]) ∧
    (generateListingFile (sampleWorld (archiveWith "") twoDigests quietClient)
      [("/b.go", "d41d8cd98f00b204e9800998ecf8427e"),
       ("/a.go", "5d41402abc4b2a76b9719d911017c592")] "in" "listing" dirWithScript).dir
        "listing"
      = some ("/b.go d41d8cd98f00b204e9800998ecf8427e\n" ++
          "/a.go 5d41402abc4b2a76b9719d911017c592\n") ∧
    (generateListingFile (reversingWorld (sampleWorld (archiveWith "") twoDigests quietClient))
      [("/b.go", "d41d8cd98f00b204e9800998ecf8427e"),
       ("/a.go", "5d41402abc4b2a76b9719d911017c592")] "in" "listing" dirWithScript).dir
        "listing"
      = some ("/a.go 5d41402abc4b2a76b9719d911017c592\n" ++
          "/b.go d41d8cd98f00b204e9800998ecf8427e\n") :=
  ⟨rfl, (List.reverse_perm _).symm, by decide, by decide⟩

/-! ### Digests -/

/-- The digests that `getDirFilesMD5` stores are strings of hexadecimal digits, two per
byte: the values for which the round trip of the listing is stated. -/
theorem hexEncodeToString_hex (src : Digest) :
    (hexEncodeToString src).data.length = 2 * src.length ∧
    ∀ c ∈ (hexEncodeToString src).data, c ∈ hextable := by
  have hdigit : ∀ n, n < 16 → hextable.getD n '0' ∈ hextable := by decide
  unfold hexEncodeToString
  induction src with
  | nil => simp
  | cons b rest ih =>
    simp only [List.flatMap_cons, List.cons_append, List.nil_append, List.length_cons,
      List.mem_cons] at ih ⊢
    refine ⟨by omega, ?_⟩
    rintro c (rfl | rfl | hc)
    · exact hdigit _ (by omega)
    · exact hdigit _ (by omega)
    · exact ih.2 c hc

end Compile
